import Mathlib

/-!
Verification of the carry synchronization engine (`src/engine/src`).

This file shallowly embeds the Rust data model and operations of the engine
(logical clock, JSON payloads, operations, schema validation, records, the
reconciler, the store and the snapshot format) as executable Lean definitions,
and proves or refutes the specification claims about them.

Modelling conventions:
* `u64` / `u32` machine integers are `Nat`; overflow is modelled with an
  explicit `% 2 ^ 64` where it matters (the logical-clock `tick`).
* Rust `String` byte-lexicographic comparison is modelled as lexicographic
  comparison of the underlying `List Char`; for valid UTF-8 the byte order and
  the scalar-value order coincide.
* `HashMap` and `BTreeMap` values are modelled as association lists with
  strictly ascending keys (`SMap`), i.e. by their canonical contents.
* Fallible Rust functions returning `Result` are modelled with `Except`;
  functions that mutate `&mut self` are modelled by explicit state passing.
* `serde_json::Value` is modelled by the mutual inductive `Json` family;
  `serde_json::Number` stores either an integer or a float, mirroring the
  `i64 / u64 / f64` storage distinction (float values are modelled as
  rationals; no claim in this file depends on float arithmetic).
-/

namespace Carry

/-- Byte-lexicographic order on strings (Rust `Ord for String`), modelled on
the character lists underlying the strings. -/
def strLt (a b : String) : Prop :=
  a.data < b.data

instance (a b : String) : Decidable (strLt a b) :=
  inferInstanceAs (Decidable (a.data < b.data))

/-- Boolean form of `strLt`, used by executable definitions. -/
def strLtb (a b : String) : Bool :=
  decide (strLt a b)

/-- Number model for `serde_json::Number`: an integer (stored as `u64` or
`i64` in serde) or a float (stored as `f64`; the value is modelled as a
rational, which no claim depends on). -/
inductive JNum where
  | int (i : Int)
  | float (q : Rat)
deriving DecidableEq, Repr

namespace JNum

/-- Rust `serde_json::Number::is_i64`: the number is an integer fitting `i64`. -/
def isI64 : JNum → Bool
  | .int i => decide (-(2 ^ 63) ≤ i) && decide (i ≤ 2 ^ 63 - 1)
  | .float _ => false

/-- Rust `serde_json::Number::is_u64`: the number is a non-negative integer
fitting `u64`. -/
def isU64 : JNum → Bool
  | .int i => decide (0 ≤ i) && decide (i ≤ 2 ^ 64 - 1)
  | .float _ => false

/-- Rust `serde_json::Number::is_f64`: the number is stored as a float. -/
def isF64 : JNum → Bool
  | .int _ => false
  | .float _ => true

end JNum

mutual
/-- Model of `serde_json::Value`. Object member lists are kept in ascending
key order, mirroring serde_json's `BTreeMap` object representation. -/
inductive Json where
  | null
  | bool (b : Bool)
  | num (n : JNum)
  | str (s : String)
  | arr (elems : JsonSeq)
  | obj (fields : JsonMembers)

/-- Elements of a JSON array. -/
inductive JsonSeq where
  | nil
  | cons (head : Json) (tail : JsonSeq)

/-- Members of a JSON object. -/
inductive JsonMembers where
  | nil
  | cons (key : String) (value : Json) (tail : JsonMembers)
end

namespace JsonMembers

/-- Lookup of an object member by key (`serde_json::Map::get`). -/
def get : JsonMembers → String → Option Json
  | .nil, _ => none
  | .cons k v rest, key => if key = k then some v else get rest key

end JsonMembers

namespace Json

/-- Rust `Value::is_string`. -/
def isString : Json → Bool
  | .str _ => true
  | _ => false

/-- Rust `Value::is_boolean`. -/
def isBoolean : Json → Bool
  | .bool _ => true
  | _ => false

/-- Rust `Value::is_i64`. -/
def isI64 : Json → Bool
  | .num n => n.isI64
  | _ => false

/-- Rust `Value::is_u64`. -/
def isU64 : Json → Bool
  | .num n => n.isU64
  | _ => false

/-- Rust `Value::is_f64`. -/
def isF64 : Json → Bool
  | .num n => n.isF64
  | _ => false

/-- Rust `Value::as_object`, returning the member list of an object. -/
def asObject : Json → Option JsonMembers
  | .obj fields => some fields
  | _ => none

end Json

/-- Rust `schema.rs::json_type_name`. -/
def jsonTypeName : Json → String
  | .null => "Null"
  | .bool _ => "Bool"
  | .num n => if n.isI64 || n.isU64 then "Int" else "Float"
  | .str _ => "String"
  | .arr _ => "Array"
  | .obj _ => "Object"

/-- Rust `clock.rs::LogicalClock`: a Lamport-style logical clock. -/
structure LogicalClock where
  nodeId : String
  counter : Nat
deriving DecidableEq, Repr

namespace LogicalClock

/-- Rust `LogicalClock::new`: counter starts at 0. -/
def new (nodeId : String) : LogicalClock :=
  ⟨nodeId, 0⟩

/-- Rust `LogicalClock::with_counter`. -/
def withCounter (nodeId : String) (counter : Nat) : LogicalClock :=
  ⟨nodeId, counter⟩

/-- Rust `LogicalClock::tick` (`self.counter += 1`): the `u64` increment is
modelled modulo `2 ^ 64`, so overflow wraps silently exactly as a release-mode
Rust build does. -/
def tick (c : LogicalClock) : LogicalClock :=
  { c with counter := (c.counter + 1) % 2 ^ 64 }

/-- Rust `LogicalClock::merge`: raise the counter to the max, keep `node_id`. -/
def merge (c other : LogicalClock) : LogicalClock :=
  { c with counter := max c.counter other.counter }

/-- Rust `LogicalClock::happened_before`. -/
def happenedBefore (c other : LogicalClock) : Bool :=
  decide (c.counter < other.counter)

/-- Rust `LogicalClock::is_concurrent_with`. -/
def isConcurrentWith (c other : LogicalClock) : Bool :=
  decide (c.counter = other.counter) && decide (c.nodeId ≠ other.nodeId)

/-- Sort key of `Ord for LogicalClock`: counter first, then byte-lex
`node_id`. -/
def key (c : LogicalClock) : Lex (Nat × List Char) :=
  toLex (c.counter, c.nodeId.data)

end LogicalClock

/-- Rust `operation.rs::CreateOp`. -/
structure CreateOp where
  opId : String
  id : String
  collection : String
  payload : Json
  timestamp : Nat
  clock : LogicalClock

/-- Rust `operation.rs::UpdateOp`. -/
structure UpdateOp where
  opId : String
  id : String
  collection : String
  payload : Json
  baseVersion : Nat
  timestamp : Nat
  clock : LogicalClock

/-- Rust `operation.rs::DeleteOp`. -/
structure DeleteOp where
  opId : String
  id : String
  collection : String
  baseVersion : Nat
  timestamp : Nat
  clock : LogicalClock

/-- Rust `operation.rs::Operation`: the closed create/update/delete union. -/
inductive Operation where
  | create (op : CreateOp)
  | update (op : UpdateOp)
  | delete (op : DeleteOp)

namespace Operation

/-- Rust `Operation::op_id`. -/
def opId : Operation → String
  | .create op => op.opId
  | .update op => op.opId
  | .delete op => op.opId

/-- Rust `Operation::record_id`. -/
def recordId : Operation → String
  | .create op => op.id
  | .update op => op.id
  | .delete op => op.id

/-- Rust `Operation::collection`. -/
def collection : Operation → String
  | .create op => op.collection
  | .update op => op.collection
  | .delete op => op.collection

/-- Rust `Operation::clock`. -/
def clock : Operation → LogicalClock
  | .create op => op.clock
  | .update op => op.clock
  | .delete op => op.clock

/-- Rust `Operation::timestamp`. -/
def timestamp : Operation → Nat
  | .create op => op.timestamp
  | .update op => op.timestamp
  | .delete op => op.timestamp

/-- Sort key of `Ord for Operation` (operation.rs lines 191-201): the
lexicographic chain `(clock.counter, clock.node_id, timestamp, op_id)`. -/
def key (op : Operation) : Lex (Nat × Lex (List Char × Lex (Nat × List Char))) :=
  toLex (op.clock.counter, toLex (op.clock.nodeId.data, toLex (op.timestamp, op.opId.data)))

end Operation

/-- Rust `error.rs::Error`: the closed error taxonomy. -/
inductive Error where
  | collectionNotFound (collection : String)
  | recordNotFound (id : String)
  | recordAlreadyExists (id : String)
  | operationOnDeleted (id : String)
  | versionMismatch (expected actual : Nat)
  | invalidPayload (msg : String)
  | missingRequiredField (field : String)
  | typeMismatch (field expected got : String)
  | invalidSnapshot (msg : String)
  | schemaVersionMismatch (expected actual : Nat)
deriving DecidableEq, Repr

/-- Early-exit iteration of a fallible check over a list, the model of Rust
`for` loops whose body ends in `?`. -/
def exceptForEach (f : α → Except Error Unit) : List α → Except Error Unit
  | [] => .ok ()
  | x :: xs =>
    match f x with
    | .error e => .error e
    | .ok _ => exceptForEach f xs

/-- Rust `schema.rs::FieldType`. -/
inductive FieldType where
  | string
  | int
  | float
  | bool
  | timestamp
  | json
deriving DecidableEq, Repr

/-- Rust `Display for FieldType`. -/
def FieldType.display : FieldType → String
  | .string => "String"
  | .int => "Int"
  | .float => "Float"
  | .bool => "Bool"
  | .timestamp => "Timestamp"
  | .json => "Json"

/-- Rust `schema.rs::FieldDef`. -/
structure FieldDef where
  name : String
  fieldType : FieldType
  required : Bool
deriving Repr

namespace FieldDef

/-- Rust `FieldDef::required`. -/
def requiredField (name : String) (fieldType : FieldType) : FieldDef :=
  ⟨name, fieldType, true⟩

/-- Rust `FieldDef::optional`. -/
def optionalField (name : String) (fieldType : FieldType) : FieldDef :=
  ⟨name, fieldType, false⟩

/-- Rust `FieldDef::validate_type` (schema.rs lines 80-99). -/
def validateType (fd : FieldDef) (value : Json) : Except Error Unit :=
  let valid : Bool :=
    match fd.fieldType with
    | .string => value.isString
    | .int => value.isI64 || value.isU64
    | .float => value.isF64 || value.isI64 || value.isU64
    | .bool => value.isBoolean
    | .timestamp => value.isU64 || value.isI64
    | .json => true
  if valid then .ok ()
  else .error (.typeMismatch fd.name fd.fieldType.display (jsonTypeName value))

/-- Rust `FieldDef::validate` (schema.rs lines 68-78). -/
def validate (fd : FieldDef) (value : Option Json) : Except Error Unit :=
  match value with
  | none => if fd.required then .error (.missingRequiredField fd.name) else .ok ()
  | some .null => if fd.required then .error (.missingRequiredField fd.name) else .ok ()
  | some v => fd.validateType v

end FieldDef

/-- Rust `schema.rs::CollectionSchema`. -/
structure CollectionSchema where
  name : String
  fields : List FieldDef
deriving Repr

/-- Rust `CollectionSchema::validate_payload`: the payload must be an object;
each schema field is checked in order. -/
def CollectionSchema.validatePayload (cs : CollectionSchema) (payload : Json) : Except Error Unit :=
  match payload.asObject with
  | none => .error (.invalidPayload "payload must be an object")
  | some obj => exceptForEach (fun fd => fd.validate (obj.get fd.name)) cs.fields

/-- Association list with strictly ascending string keys: the model of Rust
map contents (`HashMap` viewed as a finite map, and `BTreeMap` order). -/
abbrev SMap (V : Type) : Type :=
  List (String × V)

namespace SMap

/-- The empty map. -/
def empty : SMap V :=
  []

/-- Lookup by key. -/
def get : SMap V → String → Option V
  | [], _ => none
  | (k', v) :: rest, k => if k = k' then some v else get rest k

/-- Insert (or replace) a binding, keeping keys ascending. -/
def insert : SMap V → String → V → SMap V
  | [], k, v => [(k, v)]
  | (k', v') :: rest, k, v =>
    if strLt k k' then (k, v) :: (k', v') :: rest
    else if k = k' then (k, v) :: rest
    else (k', v') :: insert rest k v

/-- The list of keys. -/
def keys (m : SMap V) : List String :=
  m.map Prod.fst

/-- Map over values, preserving keys. -/
def mapVal (f : V → W) (m : SMap V) : SMap W :=
  m.map fun p => (p.1, f p.2)

/-- Keys are strictly ascending. -/
def Sorted (m : SMap V) : Prop :=
  m.Pairwise fun a b => strLt a.1 b.1

/-- Executable check that keys are strictly ascending. -/
def sortedb : SMap V → Bool
  | [] => true
  | [_] => true
  | (k1, _) :: (k2, v2) :: rest =>
    strLtb k1 k2 && sortedb ((k2, v2) :: rest)

/-- Lookup in a map keyed by `(collection, record_id)` pairs, modelled as a
nested map. -/
def get2 (m : SMap (SMap V)) (k1 k2 : String) : Option V :=
  (m.get k1).bind fun inner => inner.get k2

/-- Insertion in a map keyed by `(collection, record_id)` pairs. -/
def insert2 (m : SMap (SMap V)) (k1 k2 : String) (v : V) : SMap (SMap V) :=
  m.insert k1 (((m.get k1).getD SMap.empty).insert k2 v)

end SMap

/-- Rust `record.rs::Origin` (`loc` = `Local`, `rem` = `Remote`). -/
inductive Origin where
  | loc
  | rem
deriving DecidableEq, Repr

/-- Rust `record.rs::Metadata`. -/
structure Metadata where
  createdAt : Nat
  updatedAt : Nat
  origin : Origin
  clock : LogicalClock

namespace Metadata

/-- Rust `Metadata::new_local`. -/
def newLocal (timestamp : Nat) (clock : LogicalClock) : Metadata :=
  ⟨timestamp, timestamp, .loc, clock⟩

/-- Rust `Metadata::new_remote`. -/
def newRemote (timestamp : Nat) (clock : LogicalClock) : Metadata :=
  ⟨timestamp, timestamp, .rem, clock⟩

/-- Rust `Metadata::update`: refresh `updated_at`, `clock` and `origin`. -/
def update (m : Metadata) (timestamp : Nat) (clock : LogicalClock) (origin : Origin) : Metadata :=
  { m with updatedAt := timestamp, clock := clock, origin := origin }

end Metadata

/-- Rust `record.rs::Record`. -/
structure Record where
  id : String
  collection : String
  version : Nat
  payload : Json
  metadata : Metadata
  deleted : Bool

namespace Record

/-- Rust `Record::new`: version 1, local metadata, not deleted. -/
def new (id collection : String) (payload : Json) (timestamp : Nat)
    (clock : LogicalClock) : Record :=
  ⟨id, collection, 1, payload, Metadata.newLocal timestamp clock, false⟩

/-- Rust `Record::is_active`. -/
def isActive (r : Record) : Bool :=
  !r.deleted

/-- Rust `Record::mark_deleted`: tombstone, bump version, update metadata. -/
def markDeleted (r : Record) (timestamp : Nat) (clock : LogicalClock) (origin : Origin) : Record :=
  { r with deleted := true, version := r.version + 1,
           metadata := r.metadata.update timestamp clock origin }

/-- Rust `Record::update_payload`: replace payload, bump version, update
metadata. -/
def updatePayload (r : Record) (payload : Json) (timestamp : Nat) (clock : LogicalClock)
    (origin : Origin) : Record :=
  { r with payload := payload, version := r.version + 1,
           metadata := r.metadata.update timestamp clock origin }

end Record

/-- Rust `schema.rs::Schema`. -/
structure Schema where
  version : Nat
  collections : SMap CollectionSchema

/-- Rust `Schema::validate_operation`: the collection must exist; create and
update payloads are validated, delete has none. -/
def Schema.validateOperation (s : Schema) (op : Operation) : Except Error Unit :=
  match s.collections.get op.collection with
  | none => .error (.collectionNotFound op.collection)
  | some cs =>
    match op with
    | .create c => cs.validatePayload c.payload
    | .update u => cs.validatePayload u.payload
    | .delete _ => .ok ()

/-- Rust `reconcile.rs::MergeStrategy`. -/
inductive MergeStrategy where
  | clockWins
  | timestampWins
deriving DecidableEq, Repr

/-- Rust `reconcile.rs::ConflictResolution`. -/
inductive ConflictResolution where
  | localWins
  | remoteWins
deriving DecidableEq, Repr

/-- Rust `reconcile.rs::Conflict`. -/
structure Conflict where
  localOp : Operation
  remoteOp : Operation
  resolution : ConflictResolution
  winnerOpId : String

/-- Rust `reconcile.rs::ReconcileResult`. -/
structure ReconcileResult where
  acceptedLocal : List String
  rejectedLocal : List String
  appliedRemote : List String
  rejectedRemote : List String
  conflicts : List Conflict
  debugPendingBefore : Option Nat
  debugPendingAfter : Option Nat

/-- Rust `ReconcileResult::new`: everything empty. -/
def ReconcileResult.new : ReconcileResult :=
  ⟨[], [], [], [], [], none, none⟩

/-- Rust `reconcile.rs::OpSource` (`loc` = `Local`, `rem` = `Remote`). -/
inductive OpSource where
  | loc
  | rem
deriving DecidableEq, Repr

/-- Rust `reconcile.rs::TrackedOp`: an operation tagged with its source. -/
structure TrackedOp where
  operation : Operation
  source : OpSource

/-- Rust `TrackedOp::local`. -/
def TrackedOp.localTagged (op : Operation) : TrackedOp :=
  ⟨op, .loc⟩

/-- Rust `TrackedOp::remote`. -/
def TrackedOp.remoteTagged (op : Operation) : TrackedOp :=
  ⟨op, .rem⟩

/-- Rust `reconcile.rs::RecordState`: a record plus the operation that last
modified it and that operation's source. -/
structure RecordState where
  record : Record
  lastOp : Operation
  lastSource : OpSource

/-- Rust `reconcile.rs::Reconciler`. The `schema` field is carried but unused
by the merge logic, exactly as in the source (`#[allow(dead_code)]`). -/
structure Reconciler where
  schema : Schema
  strategy : MergeStrategy
  records : SMap (SMap RecordState)
  result : ReconcileResult

namespace Reconciler

/-- Rust `Reconciler::new`. -/
def new (schema : Schema) (strategy : MergeStrategy) : Reconciler :=
  ⟨schema, strategy, SMap.empty, ReconcileResult.new⟩

/-- Rust `Reconciler::load_records`: seed existing records keyed by
`(collection, record_id)`. -/
def loadRecords (rc : Reconciler) (items : List (Record × Operation × OpSource)) : Reconciler :=
  items.foldl
    (fun acc item =>
      { acc with records := (acc.records.insert2 item.1.collection item.1.id
          ⟨item.1, item.2.1, item.2.2⟩) })
    rc

/-- Rust `Reconciler::is_conflict`: a conflict iff the two sources differ (the
operation arguments are ignored by the source as well). -/
def isConflict (existingSource newSource : OpSource) : Bool :=
  existingSource ≠ newSource

/-- Rust `Reconciler::resolve_conflict` (reconcile.rs lines 287-309).
`ClockWins` compares the full operation order `(clock, timestamp, op_id)` and
the local operation wins ties (`local_op >= remote_op`); `TimestampWins`
compares timestamps only and the local operation wins ties. -/
def resolveConflict (rc : Reconciler) (localOp remoteOp : Operation) :
    Operation × ConflictResolution :=
  match rc.strategy with
  | .clockWins =>
    if remoteOp.key ≤ localOp.key then (localOp, .localWins)
    else (remoteOp, .remoteWins)
  | .timestampWins =>
    if remoteOp.timestamp ≤ localOp.timestamp then (localOp, .localWins)
    else (remoteOp, .remoteWins)

/-- Rust `OpSource` to `Origin` conversion done inline in `force_apply_op`. -/
def originOfSource : OpSource → Origin
  | .loc => .loc
  | .rem => .rem

/-- Rust `Reconciler::force_apply_op` (reconcile.rs lines 332-381). A create
builds a fresh record via `Record::new` (whose metadata origin is always
Local); updates and deletes mutate the existing record with the origin derived
from the tracked source, and are silently skipped when the record is absent. -/
def forceApplyOp (rc : Reconciler) (t : TrackedOp) : Reconciler :=
  let origin := originOfSource t.source
  match t.operation with
  | .create c =>
    { rc with records := (rc.records.insert2 c.collection c.id
        ⟨Record.new c.id c.collection c.payload c.timestamp c.clock, t.operation, t.source⟩) }
  | .update u =>
    match rc.records.get2 u.collection u.id with
    | some st =>
      { rc with records := (rc.records.insert2 u.collection u.id
          ⟨st.record.updatePayload u.payload u.timestamp u.clock origin, t.operation, t.source⟩) }
    | none => rc
  | .delete d =>
    match rc.records.get2 d.collection d.id with
    | some st =>
      { rc with records := (rc.records.insert2 d.collection d.id
          ⟨st.record.markDeleted d.timestamp d.clock origin, t.operation, t.source⟩) }
    | none => rc

/-- Push an op id onto a result list unless it is already present, the model
of Rust `if !list.contains(id) { list.push(id) }`. -/
def pushUnique (l : List String) (x : String) : List String :=
  if x ∈ l then l else l ++ [x]

/-- Rust `Reconciler::apply_op_to_state` (the `local_op_ids` parameter of the
source is ignored there and omitted here). -/
def applyOpToState (rc : Reconciler) (t : TrackedOp) : Reconciler :=
  let opId := t.operation.opId
  let rc1 :=
    match t.source with
    | .loc => { rc with result.acceptedLocal := pushUnique rc.result.acceptedLocal opId }
    | .rem => { rc with result.appliedRemote := pushUnique rc.result.appliedRemote opId }
  rc1.forceApplyOp t

/-- Rust `Reconciler::handle_conflict` (reconcile.rs lines 229-285). -/
def handleConflict (rc : Reconciler) (incoming : TrackedOp) (existing : RecordState) :
    Reconciler :=
  let parts : Operation × Operation × Bool :=
    if incoming.source = OpSource.loc then (incoming.operation, existing.lastOp, true)
    else (existing.lastOp, incoming.operation, false)
  let localOp := parts.1
  let remoteOp := parts.2.1
  let localSource := parts.2.2
  let wr := rc.resolveConflict localOp remoteOp
  let winner := wr.1
  let resolution := wr.2
  let winnerOpId := winner.opId
  let winnerIsLocal : Bool := winner.opId = localOp.opId
  let rc1 :=
    { rc with result.conflicts :=
        (rc.result.conflicts ++ [(⟨localOp, remoteOp, resolution, winnerOpId⟩ : Conflict)]) }
  let rc2 :=
    match resolution with
    | .localWins =>
      { rc1 with
        result.rejectedRemote := rc1.result.rejectedRemote ++ [remoteOp.opId],
        result.acceptedLocal := pushUnique rc1.result.acceptedLocal localOp.opId }
    | .remoteWins =>
      { rc1 with
        result.rejectedLocal := rc1.result.rejectedLocal ++ [localOp.opId],
        result.acceptedLocal := rc1.result.acceptedLocal.filter (fun id => id ≠ localOp.opId),
        result.appliedRemote := pushUnique rc1.result.appliedRemote remoteOp.opId }
  if (winnerIsLocal && localSource) || (!winnerIsLocal && !localSource) then
    rc2.forceApplyOp ⟨winner, incoming.source⟩
  else rc2

/-- Rust `Reconciler::apply_tracked_op` (reconcile.rs lines 200-215). -/
def applyTrackedOp (rc : Reconciler) (t : TrackedOp) : Reconciler :=
  match rc.records.get2 t.operation.collection t.operation.recordId with
  | some existing =>
    if isConflict existing.lastSource t.source then rc.handleConflict t existing
    else rc.applyOpToState t
  | none => rc.applyOpToState t

end Reconciler

/-- Comparison relation used to sort tracked operations: ascending operation
key (Rust `all_ops.sort_by(|a, b| a.operation.cmp(&b.operation))`). -/
def trackedLe (a b : TrackedOp) : Prop :=
  a.operation.key ≤ b.operation.key

instance : DecidableRel trackedLe :=
  fun a b => inferInstanceAs (Decidable (a.operation.key ≤ b.operation.key))

instance : IsTotal TrackedOp trackedLe :=
  ⟨fun a b => le_total a.operation.key b.operation.key⟩

instance : IsTrans TrackedOp trackedLe :=
  ⟨fun _ _ _ h1 h2 => le_trans h1 h2⟩

/-- Strict version of `trackedLe`, used for the uniqueness argument. -/
def trackedLt (a b : TrackedOp) : Prop :=
  a.operation.key < b.operation.key

instance : IsAntisymm TrackedOp trackedLt :=
  ⟨fun _ _ h1 h2 => absurd (lt_trans h1 h2) (lt_irrefl _)⟩

/-- Deterministic sort of the combined operation list (Rust `sort_by` with the
total operation order). -/
def sortOps (l : List TrackedOp) : List TrackedOp :=
  List.insertionSort trackedLe l

/-- Rust `Reconciler::reconcile` (reconcile.rs lines 169-198): tag, sort by
`(clock, timestamp, op_id)`, fold, and extract the final records. The
`local_op_ids` set built by the source is never read by any callee and is
omitted. -/
def Reconciler.reconcile (rc : Reconciler) (localOps remoteOps : List Operation) :
    ReconcileResult × SMap (SMap Record) :=
  let allOps := localOps.map TrackedOp.localTagged ++ remoteOps.map TrackedOp.remoteTagged
  let sorted := sortOps allOps
  let final := sorted.foldl Reconciler.applyTrackedOp rc
  (final.result, final.records.mapVal (SMap.mapVal RecordState.record))

/-- Rust `store.rs::Collection`: a map of records keyed by record id. -/
structure Collection where
  records : SMap Record

namespace Collection

/-- Rust `Collection::new`. -/
def new : Collection :=
  ⟨SMap.empty⟩

/-- Rust `Collection::get`. -/
def get (c : Collection) (id : String) : Option Record :=
  c.records.get id

/-- Rust `Collection::insert`: keyed by `record.id`. -/
def insertRecord (c : Collection) (r : Record) : Collection :=
  ⟨c.records.insert r.id r⟩

end Collection

/-- Rust `store.rs::ApplyResult`. -/
structure ApplyResult where
  opId : String
  recordId : String
  version : Nat

/-- Rust `store.rs::PendingOp`. -/
structure PendingOp where
  operation : Operation
  appliedAt : Nat

/-- Rust `store.rs::Store`. -/
structure Store where
  schema : Schema
  nodeId : String
  clock : LogicalClock
  collections : SMap Collection
  pendingOps : List PendingOp

namespace Store

/-- Rust `Store::new`: clock at 0, one empty collection per schema
collection. -/
def new (schema : Schema) (nodeId : String) : Store :=
  ⟨schema, nodeId, LogicalClock.new nodeId,
   schema.collections.foldl (fun acc p => acc.insert p.1 Collection.new) SMap.empty, []⟩

/-- Rust `Store::tick`: advance the clock, return the new value and store. -/
def tick (s : Store) : LogicalClock × Store :=
  let c := s.clock.tick
  (c, { s with clock := c })

/-- Rust `Store::apply_create` (store.rs lines 175-207). -/
def applyCreate (s : Store) (op : CreateOp) (timestamp : Nat) :
    Except Error (ApplyResult × Store) :=
  match s.collections.get op.collection with
  | none => .error (.collectionNotFound op.collection)
  | some col =>
    match col.records.get op.id with
    | some _ => .error (.recordAlreadyExists op.id)
    | none =>
      let record := Record.new op.id op.collection op.payload timestamp op.clock
      .ok (⟨op.opId, op.id, record.version⟩,
        { s with collections := s.collections.insert op.collection (col.insertRecord record) })

/-- Rust `Store::apply_update` (store.rs lines 209-245). -/
def applyUpdate (s : Store) (op : UpdateOp) (timestamp : Nat) :
    Except Error (ApplyResult × Store) :=
  match s.collections.get op.collection with
  | none => .error (.collectionNotFound op.collection)
  | some col =>
    match col.records.get op.id with
    | none => .error (.recordNotFound op.id)
    | some record =>
      if record.deleted then .error (.operationOnDeleted op.id)
      else if record.version ≠ op.baseVersion then
        .error (.versionMismatch op.baseVersion record.version)
      else
        let record2 := record.updatePayload op.payload timestamp op.clock Origin.loc
        .ok (⟨op.opId, op.id, record2.version⟩,
          { s with collections :=
              s.collections.insert op.collection (col.insertRecord record2) })

/-- Rust `Store::apply_delete` (store.rs lines 247-278). -/
def applyDelete (s : Store) (op : DeleteOp) (timestamp : Nat) :
    Except Error (ApplyResult × Store) :=
  match s.collections.get op.collection with
  | none => .error (.collectionNotFound op.collection)
  | some col =>
    match col.records.get op.id with
    | none => .error (.recordNotFound op.id)
    | some record =>
      if record.deleted then .error (.operationOnDeleted op.id)
      else if record.version ≠ op.baseVersion then
        .error (.versionMismatch op.baseVersion record.version)
      else
        let record2 := record.markDeleted timestamp op.clock Origin.loc
        .ok (⟨op.opId, op.id, record2.version⟩,
          { s with collections :=
              s.collections.insert op.collection (col.insertRecord record2) })

/-- Rust `Store::apply` (store.rs lines 152-173): validate against the schema,
merge the clock, dispatch on the operation kind, and append to the pending
queue on success. On a validation error the store is unchanged; on a later
error the clock merge has already happened. -/
def apply (s : Store) (op : Operation) (timestamp : Nat) :
    Except Error ApplyResult × Store :=
  match s.schema.validateOperation op with
  | .error e => (.error e, s)
  | .ok _ =>
    let s1 := { s with clock := s.clock.merge op.clock }
    let applied :=
      match op with
      | .create c => s1.applyCreate c timestamp
      | .update u => s1.applyUpdate u timestamp
      | .delete d => s1.applyDelete d timestamp
    match applied with
    | .error e => (.error e, s1)
    | .ok (r, s2) => (.ok r, { s2 with pendingOps := s2.pendingOps ++ [⟨op, timestamp⟩] })

/-- Rust `Store::get`: active records only. -/
def get (s : Store) (collection id : String) : Option Record :=
  ((s.collections.get collection).bind fun c => c.get id).filter fun r => r.isActive

/-- Rust `Store::get_including_deleted`. -/
def getIncludingDeleted (s : Store) (collection id : String) : Option Record :=
  (s.collections.get collection).bind fun c => c.get id

/-- Rust `Store::acknowledge`: drop pending entries whose op id is listed. -/
def acknowledge (s : Store) (opIds : List String) : Store :=
  { s with pendingOps := s.pendingOps.filter fun p => ¬ p.operation.opId ∈ opIds }

/-- Rust `Store::clear_pending`. -/
def clearPending (s : Store) : Store :=
  { s with pendingOps := [] }

/-- Rust `Store::reconcile` (store.rs lines 332-399): seed the reconciler with
synthetic create ops for every existing record, run it over the pending and
remote operations, write the final records back, prune rejected pending ops,
and fill the debug counters. -/
def reconcile (s : Store) (remoteOps : List Operation) (strategy : MergeStrategy) :
    ReconcileResult × Store :=
  let rc0 := Reconciler.new s.schema strategy
  let seeded := s.collections.foldl
    (fun rc centry =>
      centry.2.records.foldl
        (fun rc2 rentry =>
          let record := rentry.2
          let syntheticOp := Operation.create
            ⟨"__existing__" ++ record.id, record.id, centry.1, record.payload,
             record.metadata.createdAt, record.metadata.clock⟩
          let src : OpSource :=
            match record.metadata.origin with
            | .loc => .loc
            | .rem => .rem
          rc2.loadRecords [(record, syntheticOp, src)])
        rc)
    rc0
  let localOps := s.pendingOps.map (·.operation)
  let res := seeded.reconcile localOps remoteOps
  let collections2 := res.2.foldl
    (fun cols centry =>
      centry.2.foldl
        (fun cols2 rentry =>
          match cols2.get centry.1 with
          | some col => cols2.insert centry.1 (col.insertRecord rentry.2)
          | none => cols2)
        cols)
    s.collections
  let beforeRetain := s.pendingOps.length
  let pending2 := s.pendingOps.filter fun p => ¬ p.operation.opId ∈ res.1.rejectedLocal
  let afterRetain := pending2.length
  let result := { res.1 with debugPendingBefore := some beforeRetain,
                             debugPendingAfter := some afterRetain }
  (result, { s with collections := collections2, pendingOps := pending2 })

end Store

/-- Rust `snapshot.rs::SNAPSHOT_FORMAT_VERSION`. -/
def SNAPSHOT_FORMAT_VERSION : Nat := 1

/-- Rust `snapshot.rs::StoreSnapshot`: the canonical persisted form of a
store; both map levels are ordered (`BTreeMap`). -/
structure StoreSnapshot where
  formatVersion : Nat
  schemaVersion : Nat
  nodeId : String
  clock : LogicalClock
  collections : SMap (SMap Record)
  pendingOps : List PendingOp

namespace StoreSnapshot

/-- Rust `StoreSnapshot::new`. -/
def new (schemaVersion : Nat) (nodeId : String) : StoreSnapshot :=
  ⟨SNAPSHOT_FORMAT_VERSION, schemaVersion, nodeId, LogicalClock.new nodeId,
   SMap.empty, []⟩

/-- Rust `StoreSnapshot::add_record`: insert under `(record.collection,
record.id)`. -/
def addRecord (sn : StoreSnapshot) (r : Record) : StoreSnapshot :=
  { sn with collections := (sn.collections.insert r.collection
      (((sn.collections.get r.collection).getD SMap.empty).insert r.id r)) }

/-- Rust `StoreSnapshot::add_pending`. -/
def addPending (sn : StoreSnapshot) (p : PendingOp) : StoreSnapshot :=
  { sn with pendingOps := sn.pendingOps ++ [p] }

/-- Rust `StoreSnapshot::validate` (snapshot.rs lines 85-113): schema version,
then collection existence, then payloads of active records. -/
def validate (sn : StoreSnapshot) (schema : Schema) : Except Error Unit :=
  if sn.schemaVersion ≠ schema.version then
    .error (.schemaVersionMismatch schema.version sn.schemaVersion)
  else
    match exceptForEach
        (fun centry =>
          if (schema.collections.get centry.1).isSome then .ok ()
          else .error (.collectionNotFound centry.1))
        sn.collections with
    | .error e => .error e
    | .ok _ =>
      exceptForEach
        (fun centry =>
          match schema.collections.get centry.1 with
          | some cs =>
            exceptForEach
              (fun rentry =>
                if rentry.2.isActive then cs.validatePayload rentry.2.payload else .ok ())
              centry.2
          | none => .ok ())
        sn.collections

/-- Rust `StoreSnapshot::from_json` (snapshot.rs lines 126-139), after serde
deserialization has succeeded: reject snapshots whose `format_version` exceeds
`SNAPSHOT_FORMAT_VERSION`. JSON parsing itself is external to this model; this
captures the only validation `from_json` performs on the parsed value. -/
def fromJsonCheck (sn : StoreSnapshot) : Except Error StoreSnapshot :=
  if SNAPSHOT_FORMAT_VERSION < sn.formatVersion then
    .error (.invalidSnapshot
      ("unsupported snapshot format version: " ++ toString sn.formatVersion ++
        " (max supported: " ++ toString SNAPSHOT_FORMAT_VERSION ++ ")"))
  else .ok sn

end StoreSnapshot

namespace Store

/-- Rust `Store::export_state` (store.rs lines 404-422): dump every record of
every collection and every pending op into a fresh snapshot. -/
def exportState (s : Store) : StoreSnapshot :=
  let snap0 := { StoreSnapshot.new s.schema.version s.nodeId with clock := s.clock }
  let snap1 := s.collections.foldl
    (fun sn centry =>
      centry.2.records.foldl (fun sn2 rentry => sn2.addRecord rentry.2) sn)
    snap0
  s.pendingOps.foldl (fun sn p => sn.addPending p) snap1

/-- Rust `Store::import_state` (store.rs lines 428-460): validate against the
current schema, check the node id, then replace clock, collections and
pending queue. On error the store is unchanged. -/
def importState (s : Store) (snap : StoreSnapshot) : Except Error Unit × Store :=
  match snap.validate s.schema with
  | .error e => (.error e, s)
  | .ok _ =>
    if snap.nodeId ≠ s.nodeId then
      (.error (.invalidSnapshot
        ("node ID mismatch: expected '" ++ s.nodeId ++ "', got '" ++ snap.nodeId ++ "'")), s)
    else
      let cleared := s.collections.mapVal fun _ => Collection.new
      let cols2 := snap.collections.foldl
        (fun cols centry =>
          match cols.get centry.1 with
          | some col =>
            cols.insert centry.1 (centry.2.foldl (fun c rentry => c.insertRecord rentry.2) col)
          | none => cols)
        cleared
      (.ok (), { s with clock := snap.clock, collections := cols2,
                        pendingOps := snap.pendingOps })

end Store

/-- Lowercase hex digit, used in JSON control-character escapes. -/
def hexDigit (n : Nat) : Char :=
  if n < 10 then Char.ofNat (48 + n) else Char.ofNat (87 + n)

/-- Escape of one character in a JSON string, following serde_json: quote,
backslash and the named control shorthands, `\u00XX` for other control
characters, everything else verbatim. -/
def escapeChar (c : Char) : String :=
  if c = '"' then "\\\""
  else if c = '\\' then "\\\\"
  else if c = Char.ofNat 8 then "\\b"
  else if c = Char.ofNat 9 then "\\t"
  else if c = Char.ofNat 10 then "\\n"
  else if c = Char.ofNat 12 then "\\f"
  else if c = Char.ofNat 13 then "\\r"
  else if c.toNat < 32 then
    "\\u00" ++ String.singleton (hexDigit (c.toNat / 16)) ++
      String.singleton (hexDigit (c.toNat % 16))
  else String.singleton c

/-- A JSON string literal: quoted and escaped. -/
def jsonQuote (s : String) : String :=
  "\"" ++ s.data.foldl (fun acc c => acc ++ escapeChar c) "" ++ "\""

/-- A JSON object from already-rendered member values, in the given order. -/
def renderMembers (fields : List (String × String)) : String :=
  "\x7b" ++ String.intercalate "," (fields.map fun p => jsonQuote p.1 ++ ":" ++ p.2) ++ "\x7d"

/-- A JSON array from already-rendered element values, in the given order. -/
def renderElems (items : List String) : String :=
  "[" ++ String.intercalate "," items ++ "]"

/-- Decimal rendering of a serde_json number. Integers print their decimal
form; the float branch is a deterministic placeholder for Rust's float
formatting, which no claim in this file exercises. -/
def JNum.render : JNum → String
  | .int i => if i < 0 then "-" ++ toString i.natAbs else toString i.natAbs
  | .float q => toString q.num ++ "e" ++ toString q.den

mutual
/-- serde_json serialization of a JSON value (`serde_json::to_string`);
object members print in stored order, which the model keeps ascending. -/
def Json.render : Json → String
  | .null => "null"
  | .bool b => if b then "true" else "false"
  | .num n => n.render
  | .str s => jsonQuote s
  | .arr xs => "[" ++ xs.render ++ "]"
  | .obj fs => "\x7b" ++ fs.render ++ "\x7d"

/-- Comma-joined serialization of array elements. -/
def JsonSeq.render : JsonSeq → String
  | .nil => ""
  | .cons h .nil => h.render
  | .cons h t => h.render ++ "," ++ t.render

/-- Comma-joined serialization of object members. -/
def JsonMembers.render : JsonMembers → String
  | .nil => ""
  | .cons k v .nil => jsonQuote k ++ ":" ++ v.render
  | .cons k v t => jsonQuote k ++ ":" ++ v.render ++ "," ++ t.render
end

/-- serde serialization of `LogicalClock` (camelCase fields). -/
def LogicalClock.render (c : LogicalClock) : String :=
  renderMembers [("nodeId", jsonQuote c.nodeId), ("counter", toString c.counter)]

/-- serde serialization of `Origin` (lowercase variant names). -/
def Origin.render : Origin → String
  | .loc => "\"local\""
  | .rem => "\"remote\""

/-- Rendering of a boolean JSON value. -/
def renderBool (b : Bool) : String :=
  if b then "true" else "false"

/-- serde serialization of `Metadata` (field order of the Rust struct). -/
def Metadata.render (m : Metadata) : String :=
  renderMembers
    [("createdAt", toString m.createdAt), ("updatedAt", toString m.updatedAt),
     ("origin", m.origin.render), ("clock", m.clock.render)]

/-- serde serialization of `Record` (field order of the Rust struct). -/
def Record.render (r : Record) : String :=
  renderMembers
    [("id", jsonQuote r.id), ("collection", jsonQuote r.collection),
     ("version", toString r.version), ("payload", r.payload.render),
     ("metadata", r.metadata.render), ("deleted", renderBool r.deleted)]

/-- serde serialization of `Operation`: internally tagged with `type`
(lowercase variant name) followed by the variant's fields in struct order. -/
def Operation.render : Operation → String
  | .create op =>
    renderMembers
      [("type", "\"create\""), ("opId", jsonQuote op.opId), ("id", jsonQuote op.id),
       ("collection", jsonQuote op.collection), ("payload", op.payload.render),
       ("timestamp", toString op.timestamp), ("clock", op.clock.render)]
  | .update op =>
    renderMembers
      [("type", "\"update\""), ("opId", jsonQuote op.opId), ("id", jsonQuote op.id),
       ("collection", jsonQuote op.collection), ("payload", op.payload.render),
       ("baseVersion", toString op.baseVersion),
       ("timestamp", toString op.timestamp), ("clock", op.clock.render)]
  | .delete op =>
    renderMembers
      [("type", "\"delete\""), ("opId", jsonQuote op.opId), ("id", jsonQuote op.id),
       ("collection", jsonQuote op.collection),
       ("baseVersion", toString op.baseVersion),
       ("timestamp", toString op.timestamp), ("clock", op.clock.render)]

/-- serde serialization of `PendingOp`. -/
def PendingOp.render (p : PendingOp) : String :=
  renderMembers [("operation", p.operation.render), ("appliedAt", toString p.appliedAt)]

/-- Rust `StoreSnapshot::to_json` (`serde_json::to_string`): the canonical
byte image of a snapshot, with both map levels in ascending key order. -/
def StoreSnapshot.toJson (sn : StoreSnapshot) : String :=
  renderMembers
    [("formatVersion", toString sn.formatVersion),
     ("schemaVersion", toString sn.schemaVersion),
     ("nodeId", jsonQuote sn.nodeId),
     ("clock", sn.clock.render),
     ("collections",
       renderMembers (sn.collections.map fun centry =>
         (centry.1, renderMembers (centry.2.map fun rentry =>
           (rentry.1, rentry.2.render))))),
     ("pendingOps", renderElems (sn.pendingOps.map PendingOp.render))]



/-- Truth value of an `Except` result (Rust `Result::is_ok`). -/
def exceptIsOk : Except Error α → Bool
  | .ok _ => true
  | .error _ => false

/-! ### Concrete fixtures used by witnesses and counterexamples -/

/-- Schema with a single `users` collection requiring a string `name`,
mirroring the `test_schema` fixture used across the engine's tests. -/
def schemaU : Schema :=
  ⟨1, [("users", ⟨"users", [⟨"name", .string, true⟩]⟩)]⟩

/-- Payload `{"name":"Alice"}`. -/
def payloadAlice : Json := .obj (.cons "name" (.str "Alice") .nil)

/-- Payload `{"name":"Bob"}`. -/
def payloadBob : Json := .obj (.cons "name" (.str "Bob") .nil)

/-- Payload `{"name":"X"}`. -/
def payloadX : Json := .obj (.cons "name" (.str "X") .nil)

/-- The pre-existing record `u1` at version 1 of scenario E4. -/
def recU1 : Record :=
  ⟨"u1", "users", 1, payloadAlice, ⟨1000, 1000, .loc, ⟨"local", 1⟩⟩, false⟩

/-- The local pending `Delete(baseVersion=1, clock=("local",10))` of E4. -/
def delOp : Operation :=
  .delete ⟨"delete-local", "u1", "users", 1, 2000, ⟨"local", 10⟩⟩

/-- The remote `Update(baseVersion=1, clock=("remote",5))` of E4. -/
def updOp : Operation :=
  .update ⟨"update-remote", "u1", "users", payloadX, 1, 2500, ⟨"remote", 5⟩⟩

/-- The E4 store: record `u1` at version 1, the delete pending. -/
def storeC4 : Store :=
  ⟨schemaU, "local", ⟨"local", 10⟩, [("users", ⟨[("u1", recU1)]⟩)], [⟨delOp, 2000⟩]⟩

/-- Local create of `u1` with clock `("local", 3)`. -/
def lCreate : Operation :=
  .create ⟨"op-local", "u1", "users", payloadAlice, 1000, ⟨"local", 3⟩⟩

/-- Remote create of `u1` with the larger clock `("remote", 5)`. -/
def rCreate : Operation :=
  .create ⟨"op-remote", "u1", "users", payloadBob, 1000, ⟨"remote", 5⟩⟩

/-- Local op with timestamp 1000 and the smaller `(clock, op_id)`. -/
def tsLocalOp : Operation :=
  .create ⟨"aaa", "u1", "users", payloadAlice, 1000, ⟨"local", 1⟩⟩

/-- Remote op with the same timestamp 1000 and the larger `(clock, op_id)`. -/
def tsRemoteOp : Operation :=
  .create ⟨"zzz", "u1", "users", payloadBob, 1000, ⟨"remote", 9⟩⟩

/-- Create of `u1` (scenario E5). -/
def cOp1 : CreateOp := ⟨"op1", "u1", "users", payloadAlice, 1000, ⟨"n", 1⟩⟩

/-- Create of `u2` (scenario E5). -/
def cOp2 : CreateOp := ⟨"op2", "u2", "users", payloadBob, 2000, ⟨"n", 2⟩⟩

/-- E5 store built by creating `u1` then `u2`. -/
def storeE5a : Store :=
  (((Store.new schemaU "n").apply (.create cOp1) 1000).2.apply (.create cOp2) 2000).2

/-- E5 store built by creating `u2` then `u1`. -/
def storeE5b : Store :=
  (((Store.new schemaU "n").apply (.create cOp2) 2000).2.apply (.create cOp1) 1000).2

/-- An otherwise-valid snapshot with `format_version = 2`. -/
def snapFV2 : StoreSnapshot :=
  ⟨2, 1, "node-1", ⟨"node-1", 0⟩, [], []⟩

/-- A reconciler seeded with the E4 record, used to exercise
`force_apply_op` on an update. -/
def rcSeeded : Reconciler :=
  { Reconciler.new schemaU .clockWins with
    records := [("users", [("u1", ⟨recU1, lCreate, .loc⟩)])] }


/-- Update of a record that does not exist, used to exercise the `apply`
error path after successful schema validation. -/
def ghostUpdateOp : Operation :=
  .update ⟨"op-w", "ghost", "users", payloadAlice, 1, 1000, ⟨"w", 7⟩⟩

/-- Create of `u3`, a third distinct record. -/
def cOp3 : CreateOp := ⟨"op3", "u3", "users", payloadX, 1500, ⟨"m", 4⟩⟩

/-! ### Helper lemmas

Everything from here on is a theorem; the embedding's definitions are all
above. -/

theorem strLt_trans {a b c : String} (h1 : strLt a b) (h2 : strLt b c) : strLt a c :=
  lt_trans h1 h2

theorem strLt_irrefl (a : String) : ¬ strLt a a :=
  lt_irrefl a.data

theorem strLt_asymm {a b : String} (h : strLt a b) : ¬ strLt b a :=
  lt_asymm h

theorem String.data_injective : Function.Injective String.data := by
  intro a b h
  cases a
  cases b
  simp only at h
  exact congrArg String.mk h

theorem eq_of_not_strLt {a b : String} (h1 : ¬ strLt a b) (h2 : ¬ strLt b a) : a = b := by
  rcases lt_trichotomy a.data b.data with h | h | h
  · exact absurd h h1
  · exact String.data_injective h
  · exact absurd h h2

namespace Operation

theorem opId_eq_of_key_eq {a b : Operation} (h : key a = key b) : a.opId = b.opId := by
  unfold key at h
  have h2 := congrArg (fun x => (ofLex x).2) h
  simp only at h2
  have h3 := congrArg (fun x => (ofLex x).2) h2
  simp only at h3
  have h4 := congrArg (fun x => (ofLex x).2) h3
  simp only at h4
  exact String.data_injective h4

end Operation

theorem exceptForEach_ok {f : α → Except Error Unit} {l : List α}
    (h : ∀ x ∈ l, f x = .ok ()) : exceptForEach f l = .ok () := by
  induction l with
  | nil => rfl
  | cons x xs ih =>
    have hx := h x (by simp)
    simp only [exceptForEach, hx]
    exact ih fun y hy => h y (by simp [hy])

namespace SMap

variable {V : Type}

theorem sorted_of_sortedb {m : SMap V} (h : sortedb m = true) : Sorted m := by
  induction m with
  | nil => exact List.Pairwise.nil
  | cons p rest ih =>
    match rest, h with
    | [], _ => exact List.pairwise_singleton _ _
    | q :: rest2, h =>
      obtain ⟨p1, p2⟩ := p
      obtain ⟨q1, q2⟩ := q
      simp only [sortedb, Bool.and_eq_true, strLtb, decide_eq_true_eq] at h
      have htail := ih h.2
      refine List.Pairwise.cons ?_ htail
      intro b hb
      rcases List.mem_cons.mp hb with hb | hb
      · subst hb
        exact h.1
      · have := (List.pairwise_cons.mp htail).1 b hb
        exact strLt_trans h.1 this

theorem get_insert_self (m : SMap V) (k : String) (v : V) :
    (m.insert k v).get k = some v := by
  induction m with
  | nil => simp [insert, get]
  | cons p rest ih =>
    obtain ⟨k', v'⟩ := p
    by_cases h1 : strLt k k'
    · simp [insert, h1, get]
    · by_cases h2 : k = k'
      · subst h2
        simp [insert, h1, get, strLt_irrefl]
      · simp [insert, h1, h2, get, ih]

theorem get_insert_ne (m : SMap V) {k k2 : String} (v : V) (hne : k2 ≠ k) :
    (m.insert k v).get k2 = m.get k2 := by
  induction m with
  | nil => simp [insert, get, hne]
  | cons p rest ih =>
    obtain ⟨k', v'⟩ := p
    by_cases h1 : strLt k k'
    · simp only [insert, if_pos h1, get, if_neg hne]
    · by_cases h2 : k = k'
      · subst h2
        simp [insert, h1, get, hne]
      · by_cases h3 : k2 = k'
        · simp [insert, h1, h2, get, h3]
        · simp [insert, h1, h2, get, h3, ih]

theorem insert_insert_self (m : SMap V) (k : String) (v w : V) :
    (m.insert k v).insert k w = m.insert k w := by
  induction m with
  | nil => simp [insert, strLt_irrefl]
  | cons p rest ih =>
    obtain ⟨k', v'⟩ := p
    by_cases h1 : strLt k k'
    · simp [insert, h1, strLt_irrefl]
    · by_cases h2 : k = k'
      · simp [insert, h1, h2, strLt_irrefl]
      · simp [insert, h1, h2, ih]

theorem insert_comm (m : SMap V) {k1 k2 : String} (v1 v2 : V) (hne : k1 ≠ k2) :
    (m.insert k1 v1).insert k2 v2 = (m.insert k2 v2).insert k1 v1 := by
  induction m with
  | nil =>
    by_cases h1 : strLt k2 k1
    · have h2 : ¬ strLt k1 k2 := strLt_asymm h1
      simp [insert, h1, h2, hne, hne.symm]
    · by_cases h2 : strLt k1 k2
      · simp [insert, h1, h2, hne, hne.symm]
      · exact absurd (eq_of_not_strLt h2 h1) hne
  | cons p rest ih =>
    obtain ⟨k', v'⟩ := p
    rcases lt_trichotomy k1.data k2.data with hlt | heq | hgt
    · have h12 : strLt k1 k2 := hlt
      have h21 : ¬ strLt k2 k1 := strLt_asymm h12
      by_cases ha : strLt k1 k'
      · by_cases hb : strLt k2 k'
        · simp [insert, ha, hb, h12, h21, hne, hne.symm]
        · by_cases hc : k2 = k'
          · subst hc
            simp [insert, ha, hb, h12, h21, hne, hne.symm, strLt_irrefl]
          · simp [insert, ha, hb, hc, h12, h21, hne, hne.symm]
      · have hb : ¬ strLt k2 k' := fun h => ha (strLt_trans h12 h)
        by_cases hc : k1 = k'
        · subst hc
          simp [insert, ha, hb, h12, h21, hne, hne.symm, strLt_irrefl]
        · by_cases hd : k2 = k'
          · subst hd
            simp [insert, ha, hb, hc, h12, h21, hne, hne.symm, strLt_irrefl]
          · simp [insert, ha, hb, hc, hd, h12, h21, hne, hne.symm, ih]
    · exact absurd (String.data_injective heq) hne
    · have h21 : strLt k2 k1 := hgt
      have h12 : ¬ strLt k1 k2 := strLt_asymm h21
      by_cases ha : strLt k2 k'
      · by_cases hb : strLt k1 k'
        · simp [insert, ha, hb, h12, h21, hne, hne.symm]
        · by_cases hc : k1 = k'
          · subst hc
            simp [insert, ha, hb, h12, h21, hne, hne.symm, strLt_irrefl]
          · simp [insert, ha, hb, hc, h12, h21, hne, hne.symm]
      · have hb : ¬ strLt k1 k' := fun h => ha (strLt_trans h21 h)
        by_cases hc : k2 = k'
        · subst hc
          simp [insert, ha, hb, h12, h21, hne, hne.symm, strLt_irrefl]
        · by_cases hd : k1 = k'
          · subst hd
            simp [insert, ha, hb, hc, h12, h21, hne, hne.symm, strLt_irrefl]
          · simp [insert, ha, hb, hc, hd, h12, h21, hne, hne.symm, ih]

theorem insert_append_end {m : SMap V} {k : String} (v : V)
    (h : ∀ p ∈ m, strLt p.1 k) : m.insert k v = m ++ [(k, v)] := by
  induction m with
  | nil => rfl
  | cons p rest ih =>
    obtain ⟨k', v'⟩ := p
    have hk' : strLt k' k := h (k', v') (by simp)
    have h1 : ¬ strLt k k' := strLt_asymm hk'
    have h2 : ¬ k = k' := by
      intro he
      subst he
      exact strLt_irrefl k hk'
    simp only [insert, if_neg h1, if_neg h2, List.cons_append, List.cons.injEq, true_and]
    exact ih fun q hq => h q (by simp [hq])

theorem insert_append_key {m : SMap V} {k : String} (v w : V)
    (h : ∀ p ∈ m, strLt p.1 k) : (m ++ [(k, v)]).insert k w = m ++ [(k, w)] := by
  induction m with
  | nil => simp [insert, strLt_irrefl]
  | cons p rest ih =>
    obtain ⟨k', v'⟩ := p
    have hk' : strLt k' k := h (k', v') (by simp)
    have h1 : ¬ strLt k k' := strLt_asymm hk'
    have h2 : ¬ k = k' := by
      intro he
      subst he
      exact strLt_irrefl k hk'
    simp only [List.cons_append, insert, if_neg h1, if_neg h2, List.cons.injEq, true_and]
    exact ih fun q hq => h q (by simp [hq])

theorem get_append_absent {m m2 : SMap V} {k : String}
    (h : ∀ p ∈ m, p.1 ≠ k) : (m ++ m2).get k = m2.get k := by
  induction m with
  | nil => rfl
  | cons p rest ih =>
    obtain ⟨k', v'⟩ := p
    have h1 : ¬ k = k' := fun he => h (k', v') (by simp) he.symm
    simp only [List.cons_append, get, if_neg h1]
    exact ih fun q hq => h q (by simp [hq])

theorem mem_insert {m : SMap V} {k : String} {v : V} {p : String × V}
    (h : p ∈ m.insert k v) : p ∈ m ∨ p = (k, v) := by
  induction m with
  | nil =>
    simp only [insert] at h
    exact Or.inr (by simpa using h)
  | cons q rest ih =>
    obtain ⟨q1, q2⟩ := q
    by_cases ha : strLt k q1
    · simp only [insert, if_pos ha, List.mem_cons] at h
      rcases h with h | h
      · exact Or.inr h
      · exact Or.inl (List.mem_cons.mpr (by simpa using h))
    · by_cases hb : k = q1
      · simp only [insert, if_neg ha, if_pos hb, List.mem_cons] at h
        rcases h with h | h
        · exact Or.inr h
        · exact Or.inl (List.mem_cons.mpr (Or.inr h))
      · simp only [insert, if_neg ha, if_neg hb, List.mem_cons] at h
        rcases h with h | h
        · exact Or.inl (List.mem_cons.mpr (Or.inl h))
        · rcases ih h with h2 | h2
          · exact Or.inl (List.mem_cons.mpr (Or.inr h2))
          · exact Or.inr h2

theorem insert_sorted {m : SMap V} (h : Sorted m) (k : String) (v : V) :
    Sorted (m.insert k v) := by
  induction m with
  | nil => exact List.pairwise_singleton _ _
  | cons p rest ih =>
    obtain ⟨k', v'⟩ := p
    rw [Sorted, List.pairwise_cons] at h
    by_cases h1 : strLt k k'
    · rw [Sorted]
      simp only [insert, if_pos h1]
      refine List.Pairwise.cons ?_ (List.Pairwise.cons h.1 h.2)
      intro b hb
      rcases List.mem_cons.mp hb with hb | hb
      · subst hb
        exact h1
      · exact strLt_trans h1 (h.1 b hb)
    · by_cases h2 : k = k'
      · subst h2
        rw [Sorted]
        simp only [insert, if_neg h1, if_pos rfl]
        exact List.Pairwise.cons h.1 h.2
      · have hk : strLt k' k := by
          rcases lt_trichotomy k.data k'.data with hx | hx | hx
          · exact absurd hx h1
          · exact absurd (String.data_injective hx) h2
          · exact hx
        rw [Sorted]
        simp only [insert, if_neg h1, if_neg h2]
        refine List.Pairwise.cons ?_ (ih h.2)
        intro b hb
        rcases mem_insert hb with hb | hb
        · exact h.1 b hb
        · subst hb
          exact hk

end SMap


/-! ### Small bridging lemmas -/

namespace SMap

theorem get2_insert2_self (m : SMap (SMap V)) (k1 k2 : String) (v : V) :
    (m.insert2 k1 k2 v).get2 k1 k2 = some v := by
  unfold insert2 get2
  rw [get_insert_self]
  simp [get_insert_self]

end SMap

theorem Collection.insertRecord_comm (c : Collection) (r1 r2 : Record) (h : r1.id ≠ r2.id) :
    (c.insertRecord r1).insertRecord r2 = (c.insertRecord r2).insertRecord r1 := by
  unfold Collection.insertRecord
  exact congrArg Collection.mk (SMap.insert_comm c.records _ _ h)


/-! ### Sorted-map lemmas for the snapshot round-trip -/

namespace SMap

variable {V W : Type}

theorem get_eq_none_of_forall_ne {m : SMap V} {k : String}
    (h : ∀ p ∈ m, p.1 ≠ k) : m.get k = none := by
  induction m with
  | nil => rfl
  | cons p rest ih =>
    obtain ⟨k1, v1⟩ := p
    have h1 : ¬ k = k1 := fun he => h (k1, v1) (by simp) he.symm
    simp only [get, if_neg h1]
    exact ih fun q hq => h q (by simp [hq])

theorem get_isSome_iff_mem_keys {m : SMap V} {k : String} :
    (m.get k).isSome = true ↔ k ∈ m.keys := by
  induction m with
  | nil => simp [get, keys]
  | cons p rest ih =>
    obtain ⟨k1, v1⟩ := p
    by_cases h1 : k = k1
    · subst h1
      simp [get, keys]
    · simp only [get, if_neg h1, keys, List.map_cons, List.mem_cons]
      rw [ih]
      simp [h1, keys]

theorem get_mapVal (f : V → W) (m : SMap V) (k : String) :
    (m.mapVal f).get k = (m.get k).map f := by
  induction m with
  | nil => rfl
  | cons p rest ih =>
    obtain ⟨k1, v1⟩ := p
    by_cases h1 : k = k1
    · subst h1
      simp [mapVal, get]
    · simp only [mapVal, List.map_cons, get, if_neg h1]
      exact ih

theorem mapVal_sorted {m : SMap V} (f : V → W) (h : Sorted m) : Sorted (m.mapVal f) := by
  unfold Sorted mapVal
  rw [List.pairwise_map]
  exact h.imp fun hab => hab

theorem keys_mapVal (f : V → W) (m : SMap V) : (m.mapVal f).keys = m.keys := by
  unfold keys mapVal
  rw [List.map_map]
  rfl

theorem ext_sorted {m m2 : SMap V} (hm : Sorted m) (hm2 : Sorted m2)
    (h : ∀ k, m.get k = m2.get k) : m = m2 := by
  induction m generalizing m2 with
  | nil =>
    cases m2 with
    | nil => rfl
    | cons q rest2 =>
      have hq := h q.1
      simp [get] at hq
  | cons p rest ih =>
    cases m2 with
    | nil =>
      have hp := h p.1
      simp [get] at hp
    | cons q rest2 =>
      obtain ⟨k1, v1⟩ := p
      obtain ⟨k2, v2⟩ := q
      rw [Sorted, List.pairwise_cons] at hm hm2
      have hput : ∀ (l : SMap V) (k : String) (v : V),
          (∀ b ∈ l, strLt k b.1) → get ((k, v) :: l) k = some v := by
        intro l k v _
        simp [get]
      rcases lt_trichotomy k1.data k2.data with hlt | heq | hgt
      · exfalso
        have h1 := h k1
        simp only [get, if_pos rfl] at h1
        have h2 : ¬ k1 = k2 := fun he => absurd (congrArg String.data he) (ne_of_lt hlt)
        rw [if_neg h2] at h1
        have h3 : get rest2 k1 = none := by
          apply get_eq_none_of_forall_ne
          intro b hb
          intro he
          have := hm2.1 b hb
          rw [he] at this
          exact absurd (strLt_trans hlt this) (strLt_irrefl k1)
        rw [h3] at h1
        exact Option.noConfusion h1
      · have hk : k1 = k2 := String.data_injective heq
        subst hk
        have h1 := h k1
        simp only [get, if_pos rfl] at h1
        injection h1 with h1
        subst h1
        have htails : rest = rest2 := by
          apply ih hm.2 hm2.2
          intro k
          by_cases hkk : k = k1
          · subst hkk
            have e1 : get rest k = none := by
              apply get_eq_none_of_forall_ne
              intro b hb he
              have := hm.1 b hb
              rw [he] at this
              exact strLt_irrefl k this
            have e2 : get rest2 k = none := by
              apply get_eq_none_of_forall_ne
              intro b hb he
              have := hm2.1 b hb
              rw [he] at this
              exact strLt_irrefl k this
            rw [e1, e2]
          · have h2 := h k
            simpa only [get, if_neg hkk] using h2
        rw [htails]
      · exfalso
        have h1 := h k2
        simp only [get, if_pos rfl] at h1
        have h2 : ¬ k2 = k1 := fun he => absurd (congrArg String.data he) (ne_of_lt hgt)
        rw [if_neg h2] at h1
        have h3 : get rest k2 = none := by
          apply get_eq_none_of_forall_ne
          intro b hb
          intro he
          have := hm.1 b hb
          rw [he] at this
          exact absurd (strLt_trans hgt this) (strLt_irrefl k2)
        rw [h3] at h1
        exact Option.noConfusion h1

theorem foldl_insert_rebuild {done rest : SMap V}
    (hsort : Sorted (done ++ rest)) :
    rest.foldl (fun acc p => acc.insert p.1 p.2) done = done ++ rest := by
  induction rest generalizing done with
  | nil => simp
  | cons p rest2 ih =>
    obtain ⟨k, v⟩ := p
    have hfront : ∀ q ∈ done, strLt q.1 k := by
      intro q hq
      have := (List.pairwise_append.mp hsort).2.2 q hq (k, v) (by simp)
      exact this
    have hstep : done.insert k v = done ++ [(k, v)] := insert_append_end v hfront
    have hsort2 : Sorted ((done ++ [(k, v)]) ++ rest2) := by
      rw [List.append_assoc]
      exact hsort
    simp only [List.foldl_cons, hstep]
    rw [ih hsort2, List.append_assoc]
    rfl

theorem get_mem {m : SMap V} {k : String} {v : V} (h : get m k = some v) : (k, v) ∈ m := by
  induction m with
  | nil => exact Option.noConfusion h
  | cons p rest ih =>
    obtain ⟨k1, v1⟩ := p
    by_cases h1 : k = k1
    · subst h1
      simp only [get, if_pos rfl] at h
      injection h with h
      subst h
      simp
    · simp only [get, if_neg h1] at h
      exact List.mem_cons_of_mem _ (ih h)

end SMap


/-! ### Export and import fold characterizations -/

theorem addPending_fold (ps : List PendingOp) (sn : StoreSnapshot) :
    ps.foldl (fun sn2 p => sn2.addPending p) sn = { sn with pendingOps := sn.pendingOps ++ ps } := by
  induction ps generalizing sn with
  | nil => simp
  | cons p rest ih =>
    rw [List.foldl_cons, ih]
    simp [StoreSnapshot.addPending]

theorem get_append_last {m : SMap V} {k : String} (v : V)
    (h : ∀ p ∈ m, p.1 ≠ k) : (m ++ [(k, v)]).get k = some v := by
  rw [SMap.get_append_absent h]
  simp [SMap.get]

theorem export_fold_inner (recs : SMap Record) (cname : String) :
    ∀ (sn : StoreSnapshot) (base : SMap (SMap Record)) (pre : SMap Record),
    sn.collections = base ++ [(cname, pre)] →
    (∀ p ∈ base, strLt p.1 cname) →
    (∀ p ∈ pre, ∀ q ∈ recs, strLt p.1 q.1) →
    SMap.Sorted recs →
    (∀ p ∈ recs, p.2.collection = cname ∧ p.2.id = p.1) →
    recs.foldl (fun sn2 rentry => sn2.addRecord rentry.2) sn
      = { sn with collections := base ++ [(cname, pre ++ recs)] } := by
  induction recs with
  | nil =>
    intro sn base pre hcols hbase hpre hsorted hmatch
    simp only [List.foldl_nil, List.append_nil]
    rw [← hcols]
  | cons p rest ih =>
    intro sn base pre hcols hbase hpre hsorted hmatch
    obtain ⟨k, r⟩ := p
    have hrc : r.collection = cname := (hmatch (k, r) (by simp)).1
    have hrid : r.id = k := (hmatch (k, r) (by simp)).2
    have hbase2 : ∀ q ∈ base, q.1 ≠ cname := fun q hq he =>
      absurd (he ▸ hbase q hq) (strLt_irrefl cname)
    have hget : sn.collections.get cname = some pre := by
      rw [hcols]
      exact get_append_last pre hbase2
    have hprek : ∀ p2 ∈ pre, strLt p2.1 k := fun p2 hp2 => hpre p2 hp2 (k, r) (by simp)
    have hstep : sn.addRecord r = { sn with collections := base ++ [(cname, pre ++ [(k, r)])] } := by
      unfold StoreSnapshot.addRecord
      rw [hrc, hget]
      have hins : pre.insert r.id r = pre ++ [(r.id, r)] :=
        SMap.insert_append_end r (by rw [hrid]; exact hprek)
      rw [show (some pre).getD SMap.empty = pre from rfl, hins, hrid, hcols]
      rw [SMap.insert_append_key pre (pre ++ [(k, r)]) hbase]
    rw [List.foldl_cons]
    dsimp only
    rw [hstep]
    rw [ih _ base (pre ++ [(k, r)]) rfl hbase ?_ ?_ ?_]
    · rw [List.append_assoc]
      rfl
    · intro p2 hp2 q hq
      rcases List.mem_append.mp hp2 with h2 | h2
      · exact hpre p2 h2 q (by simp [hq])
      · have hp3 : p2 = (k, r) := by simpa using h2
        subst hp3
        exact (List.pairwise_cons.mp hsorted).1 q hq
    · exact (List.pairwise_cons.mp hsorted).2
    · intro q hq
      exact hmatch q (by simp [hq])

theorem export_fold_outer (cols : SMap Collection) :
    ∀ (sn : StoreSnapshot) (base : SMap (SMap Record)),
    sn.collections = base →
    (∀ p ∈ base, ∀ q ∈ cols, strLt p.1 q.1) →
    SMap.Sorted cols →
    (∀ q ∈ cols, SMap.Sorted q.2.records
      ∧ ∀ p ∈ q.2.records, p.2.collection = q.1 ∧ p.2.id = p.1) →
    cols.foldl (fun sn2 centry =>
        centry.2.records.foldl (fun sn3 rentry => sn3.addRecord rentry.2) sn2) sn
      = { sn with collections := base ++ cols.filterMap fun q =>
          if q.2.records.isEmpty then none else some (q.1, q.2.records) } := by
  induction cols with
  | nil =>
    intro sn base hcols hbase hsorted hinner
    simp only [List.foldl_nil, List.filterMap_nil, List.append_nil]
    rw [← hcols]
  | cons c rest ih =>
    intro sn base hcols hbase hsorted hinner
    obtain ⟨cname, col⟩ := c
    have hcolSorted : SMap.Sorted col.records := (hinner (cname, col) (by simp)).1
    have hcolMatch : ∀ p ∈ col.records, p.2.collection = cname ∧ p.2.id = p.1 :=
      (hinner (cname, col) (by simp)).2
    rw [List.foldl_cons]
    dsimp only
    cases hrecs : col.records with
    | nil =>
      rw [List.foldl_nil]
      rw [ih sn base hcols ?_ ?_ ?_]
      · rw [List.filterMap_cons]
        dsimp only
        rw [hrecs]
        rfl
      · intro p hp q hq
        exact hbase p hp q (by simp [hq])
      · exact (List.pairwise_cons.mp hsorted).2
      · intro q hq
        exact hinner q (by simp [hq])
    | cons r0 rest2 =>
      obtain ⟨k0, rec0⟩ := r0
      have hr0c : rec0.collection = cname := (hcolMatch (k0, rec0) (by rw [hrecs]; simp)).1
      have hr0id : rec0.id = k0 := (hcolMatch (k0, rec0) (by rw [hrecs]; simp)).2
      have hbaseC : ∀ p ∈ base, strLt p.1 cname := fun p hp =>
        hbase p hp (cname, col) (by simp)
      have hbase2 : ∀ p ∈ base, p.1 ≠ cname := fun q hq he =>
        absurd (he ▸ hbaseC q hq) (strLt_irrefl cname)
      have hget : sn.collections.get cname = none := by
        rw [hcols]
        exact SMap.get_eq_none_of_forall_ne hbase2
      have hstep1 : sn.addRecord rec0
          = { sn with collections := base ++ [(cname, [(k0, rec0)])] } := by
        unfold StoreSnapshot.addRecord
        rw [hr0c, hget]
        rw [show ((none : Option (SMap Record)).getD SMap.empty).insert rec0.id rec0
          = [(rec0.id, rec0)] from rfl]
        rw [hr0id, hcols]
        rw [SMap.insert_append_end _ hbaseC]
      have hfold2 : rest2.foldl (fun sn2 rentry => sn2.addRecord rentry.2)
            { sn with collections := base ++ [(cname, [(k0, rec0)])] }
          = { sn with collections := base ++ [(cname, (k0, rec0) :: rest2)] } := by
        rw [export_fold_inner rest2 cname _ base [(k0, rec0)] rfl hbaseC ?_ ?_ ?_]
        · rfl
        · intro p hp q hq
          have hp2 : p = (k0, rec0) := by simpa using hp
          subst hp2
          have hs2 := hcolSorted
          rw [hrecs] at hs2
          exact (List.pairwise_cons.mp hs2).1 q hq
        · have hs2 := hcolSorted
          rw [hrecs] at hs2
          exact (List.pairwise_cons.mp hs2).2
        · intro q hq
          exact hcolMatch q (by rw [hrecs]; simp [hq])
      rw [List.foldl_cons]
      dsimp only
      rw [hstep1, hfold2]
      rw [ih _ (base ++ [(cname, ((k0, rec0) :: rest2 : SMap Record))]) rfl ?_ ?_ ?_]
      · rw [List.filterMap_cons]
        dsimp only
        rw [hrecs]
        rw [List.append_assoc]
        rfl
      · intro p hp q hq
        rcases List.mem_append.mp hp with h2 | h2
        · exact hbase p h2 q (by simp [hq])
        · have hp2 : p = (cname, ((k0, rec0) :: rest2 : SMap Record)) := by simpa using h2
          subst hp2
          exact (List.pairwise_cons.mp hsorted).1 q hq
      · exact (List.pairwise_cons.mp hsorted).2
      · intro q hq
        exact hinner q (by simp [hq])


theorem strLt_ne {a b : String} (h : strLt a b) : a ≠ b := fun he => by
  rw [he] at h
  exact strLt_irrefl b h

theorem exportState_eq (s : Store)
    (hcolsSorted : SMap.Sorted s.collections)
    (hrecsSorted : ∀ ce ∈ s.collections, SMap.Sorted ce.2.records)
    (hmatch : ∀ ce ∈ s.collections, ∀ re ∈ ce.2.records,
      re.2.collection = ce.1 ∧ re.2.id = re.1) :
    s.exportState =
      ⟨SNAPSHOT_FORMAT_VERSION, s.schema.version, s.nodeId, s.clock,
       s.collections.filterMap fun q =>
         if q.2.records.isEmpty then none else some (q.1, q.2.records),
       s.pendingOps⟩ := by
  simp only [Store.exportState]
  rw [export_fold_outer s.collections _ [] rfl (by simp) hcolsSorted
    (fun q hq => ⟨hrecsSorted q hq, hmatch q hq⟩)]
  rw [addPending_fold]
  rfl

theorem foldl_insertRecord_go (recs : SMap Record) :
    ∀ done : SMap Record, SMap.Sorted (done ++ recs) →
    (∀ p ∈ recs, p.2.id = p.1) →
    recs.foldl (fun c rentry => c.insertRecord rentry.2) (⟨done⟩ : Collection)
      = ⟨done ++ recs⟩ := by
  induction recs with
  | nil =>
    intro done _ _
    simp
  | cons p rest ih =>
    intro done hsort hids
    obtain ⟨k, r⟩ := p
    have hrid : r.id = k := hids (k, r) (by simp)
    rw [List.foldl_cons]
    dsimp only
    have hins : done.insert r.id r = done ++ [(k, r)] := by
      rw [hrid]
      exact SMap.insert_append_end r fun q hq =>
        (List.pairwise_append.mp hsort).2.2 q hq (k, r) (by simp)
    rw [show (Collection.mk done).insertRecord r = Collection.mk (done ++ [(k, r)]) by
      unfold Collection.insertRecord
      dsimp only
      rw [hins]]
    rw [ih (done ++ [(k, r)]) (by rw [List.append_assoc]; exact hsort)
      (fun q hq => hids q (by simp [hq]))]
    rw [List.append_assoc]
    rfl

theorem import_fold_sorted (sc : SMap (SMap Record)) :
    ∀ cols : SMap Collection, SMap.Sorted cols →
    SMap.Sorted (sc.foldl (fun cols2 centry =>
      match cols2.get centry.1 with
      | some col => cols2.insert centry.1
          (centry.2.foldl (fun c rentry => c.insertRecord rentry.2) col)
      | none => cols2) cols) := by
  induction sc with
  | nil =>
    intro cols h
    exact h
  | cons ce rest ih =>
    intro cols h
    rw [List.foldl_cons]
    cases hc : cols.get ce.1 with
    | some col =>
      simp only [hc]
      exact ih _ (SMap.insert_sorted h _ _)
    | none =>
      simp only [hc]
      exact ih _ h

theorem import_fold_get (sc : SMap (SMap Record)) :
    ∀ (cols : SMap Collection),
    List.Pairwise (fun a b : String × SMap Record => a.1 ≠ b.1) sc →
    ∀ k : String,
    (sc.foldl (fun cols2 centry =>
        match cols2.get centry.1 with
        | some col => cols2.insert centry.1
            (centry.2.foldl (fun c rentry => c.insertRecord rentry.2) col)
        | none => cols2) cols).get k
      = match sc.get k with
        | some recs => (cols.get k).map fun col =>
            recs.foldl (fun c rentry => c.insertRecord rentry.2) col
        | none => cols.get k := by
  induction sc with
  | nil =>
    intro cols _ k
    rfl
  | cons ce rest ih =>
    intro cols hnodup k
    obtain ⟨cn, recs⟩ := ce
    rw [List.foldl_cons]
    dsimp only
    have htail := (List.pairwise_cons.mp hnodup).2
    by_cases hk : k = cn
    · subst hk
      have hrest : SMap.get rest k = none := by
        apply SMap.get_eq_none_of_forall_ne
        intro p hp
        exact fun he => (List.pairwise_cons.mp hnodup).1 p hp he.symm
      cases hc : cols.get k with
      | some col =>
        simp only [hc]
        rw [ih _ htail k, hrest, SMap.get_insert_self]
        simp [SMap.get, hc]
      | none =>
        simp only [hc]
        rw [ih _ htail k, hrest, hc]
        simp [SMap.get, hc]
    · have hgets : SMap.get ((cn, recs) :: rest) k = SMap.get rest k := by
        simp [SMap.get, hk]
      cases hc : cols.get cn with
      | some col =>
        simp only [hc]
        rw [ih _ htail k, hgets]
        cases hr : SMap.get rest k with
        | some recs2 =>
          rw [SMap.get_insert_ne _ _ hk]
        | none =>
          rw [SMap.get_insert_ne _ _ hk]
      | none =>
        simp only [hc]
        rw [ih _ htail k, hgets]

theorem filterMap_records_get (m : SMap Collection) :
    SMap.Sorted m → ∀ k : String,
    SMap.get (m.filterMap fun q =>
        if q.2.records.isEmpty then none else some (q.1, q.2.records)) k
      = match m.get k with
        | some col => if col.records.isEmpty then none else some col.records
        | none => none := by
  induction m with
  | nil =>
    intro _ k
    rfl
  | cons p rest ih =>
    intro hm k
    obtain ⟨k1, col1⟩ := p
    have htail := (List.pairwise_cons.mp hm).2
    have hhead := (List.pairwise_cons.mp hm).1
    rw [List.filterMap_cons]
    dsimp only
    by_cases hk : k = k1
    · subst hk
      have hnone : SMap.get (rest.filterMap fun q =>
          if q.2.records.isEmpty then none else some (q.1, q.2.records)) k = none := by
        apply SMap.get_eq_none_of_forall_ne
        intro p2 hp2
        obtain ⟨q, hq, hfq⟩ := List.mem_filterMap.mp hp2
        by_cases hqe : q.2.records.isEmpty
        · rw [if_pos hqe] at hfq
          exact Option.noConfusion hfq
        · rw [if_neg hqe] at hfq
          injection hfq with hfq
          rw [← hfq]
          exact (strLt_ne (hhead q hq)).symm
      cases he : col1.records.isEmpty with
      | true =>
        simp [SMap.get, he, hnone]
      | false =>
        simp [SMap.get, he]
    · cases he : col1.records.isEmpty with
      | true =>
        simp [SMap.get, hk, ih htail]
      | false =>
        simp [SMap.get, hk, ih htail]

theorem filterMap_records_sorted (m : SMap Collection) :
    SMap.Sorted m →
    SMap.Sorted (m.filterMap fun q =>
      if q.2.records.isEmpty then none else some (q.1, q.2.records)) := by
  induction m with
  | nil =>
    intro _
    exact List.Pairwise.nil
  | cons p rest ih =>
    intro hm
    obtain ⟨k1, col1⟩ := p
    have htail := (List.pairwise_cons.mp hm).2
    have hhead := (List.pairwise_cons.mp hm).1
    rw [List.filterMap_cons]
    dsimp only
    cases he : col1.records.isEmpty with
    | true =>
      exact ih htail
    | false =>
      refine List.Pairwise.cons ?_ (ih htail)
      intro b hb
      obtain ⟨q, hq, hfq⟩ := List.mem_filterMap.mp hb
      by_cases hqe : q.2.records.isEmpty
      · rw [if_pos hqe] at hfq
        exact Option.noConfusion hfq
      · rw [if_neg hqe] at hfq
        injection hfq with hfq
        rw [← hfq]
        exact hhead q hq

theorem storeNew_collections (sch : Schema) (n : String) (hs : SMap.Sorted sch.collections) :
    (Store.new sch n).collections = sch.collections.mapVal fun _ => Collection.new := by
  show sch.collections.foldl (fun acc p => SMap.insert acc p.1 Collection.new) SMap.empty
    = sch.collections.mapVal fun _ => Collection.new
  have hmap : (SMap.mapVal (fun _ => Collection.new) sch.collections).foldl
      (fun acc p => SMap.insert acc p.1 p.2) ([] : SMap Collection)
      = sch.collections.foldl (fun acc p => SMap.insert acc p.1 Collection.new) [] := by
    rw [SMap.mapVal, List.foldl_map]
  rw [show (SMap.empty : SMap Collection) = [] from rfl, ← hmap]
  have hsorted2 : SMap.Sorted (([] : SMap Collection)
      ++ SMap.mapVal (fun _ => Collection.new) sch.collections) := by
    rw [List.nil_append]
    exact SMap.mapVal_sorted _ hs
  rw [SMap.foldl_insert_rebuild hsorted2, List.nil_append]

/-! ### Claim C6: snapshot round-trip -/

/-- C6: importing `export_state(s)` into a fresh store with the same schema and
node id reproduces `s` exactly as a pure value — the same records per
collection including tombstones, the same clock, and the same pending queue in
the same order — for every store `s` in canonical form: its maps have sorted
keys, every record sits in the collection and under the id it is keyed by,
every collection is declared in the schema (and vice versa), and every payload
validates against its collection schema. -/
theorem c6_import_export_roundtrip (s : Store)
    (h1 : SMap.sortedb s.schema.collections = true)
    (h2 : SMap.sortedb s.collections = true)
    (h3 : ∀ ce ∈ s.collections, SMap.sortedb ce.2.records = true)
    (h4 : ∀ ce ∈ s.collections, ∀ re ∈ ce.2.records,
      re.2.collection = ce.1 ∧ re.2.id = re.1)
    (h5 : SMap.keys s.collections = SMap.keys s.schema.collections)
    (h6 : ∀ ce ∈ s.collections, ∀ re ∈ ce.2.records,
      Option.elim (SMap.get s.schema.collections ce.1) True
        (fun cs => cs.validatePayload re.2.payload = Except.ok ())) :
    (Store.new s.schema s.nodeId).importState s.exportState = (.ok (), s) := by
  obtain ⟨sch, nid, clk, cols, pend⟩ := s
  dsimp only at h1 h2 h3 h4 h5 h6 ⊢
  have hss : SMap.Sorted sch.collections := SMap.sorted_of_sortedb h1
  have hcs : SMap.Sorted cols := SMap.sorted_of_sortedb h2
  have hrs : ∀ ce ∈ cols, SMap.Sorted ce.2.records :=
    fun ce hce => SMap.sorted_of_sortedb (h3 ce hce)
  rw [exportState_eq ⟨sch, nid, clk, cols, pend⟩ hcs hrs h4]
  dsimp only
  have hfmne : List.Pairwise (fun a b : String × SMap Record => a.1 ≠ b.1)
      (cols.filterMap fun q =>
        if q.2.records.isEmpty then none else some (q.1, q.2.records)) :=
    (filterMap_records_sorted cols hcs).imp fun hab => strLt_ne hab
  have hkeysSub : ∀ q ∈ (cols.filterMap fun q2 =>
      if q2.2.records.isEmpty then none else some (q2.1, q2.2.records)),
      (SMap.get sch.collections q.1).isSome = true := by
    intro q hq
    obtain ⟨p, hp, hfp⟩ := List.mem_filterMap.mp hq
    by_cases hpe : p.2.records.isEmpty = true
    · rw [if_pos hpe] at hfp
      exact Option.noConfusion hfp
    · rw [if_neg hpe] at hfp
      injection hfp with hfp
      have hk1 : q.1 = p.1 := by rw [← hfp]
      rw [hk1]
      apply SMap.get_isSome_iff_mem_keys.mpr
      rw [← h5]
      exact List.mem_map.mpr ⟨p, hp, rfl⟩
  have hvalid : StoreSnapshot.validate
      (⟨SNAPSHOT_FORMAT_VERSION, sch.version, nid, clk,
        cols.filterMap fun q =>
          if q.2.records.isEmpty then none else some (q.1, q.2.records),
        pend⟩ : StoreSnapshot) (Store.new sch nid).schema = Except.ok () := by
    show StoreSnapshot.validate _ sch = Except.ok ()
    unfold StoreSnapshot.validate
    dsimp only
    rw [if_neg (fun hne => hne rfl : ¬(sch.version ≠ sch.version))]
    have hloop1 : ∀ q ∈ (cols.filterMap fun q2 =>
        if q2.2.records.isEmpty then none else some (q2.1, q2.2.records)),
        (if (SMap.get sch.collections q.1).isSome = true then (Except.ok () : Except Error Unit)
         else Except.error (Error.collectionNotFound q.1)) = Except.ok () := by
      intro q hq
      rw [if_pos (hkeysSub q hq)]
    rw [exceptForEach_ok hloop1]
    apply exceptForEach_ok
    intro q hq
    obtain ⟨p, hp, hfp⟩ := List.mem_filterMap.mp hq
    by_cases hpe : p.2.records.isEmpty = true
    · rw [if_pos hpe] at hfp
      exact Option.noConfusion hfp
    · rw [if_neg hpe] at hfp
      injection hfp with hfp
      have hk1 : q.1 = p.1 := by rw [← hfp]
      have hk2 : q.2 = p.2.records := by rw [← hfp]
      obtain ⟨cs, hcsg⟩ := Option.isSome_iff_exists.mp (hkeysSub q hq)
      rw [hcsg]
      rw [hk2]
      apply exceptForEach_ok
      intro re hre
      have h6q : cs.validatePayload re.2.payload = Except.ok () := by
        have h6p := h6 p hp re hre
        rw [hk1] at hcsg
        rw [hcsg] at h6p
        exact h6p
      by_cases ha : re.2.isActive = true
      · rw [if_pos ha, h6q]
      · rw [if_neg ha]
  have hclearSorted : SMap.Sorted
      (SMap.mapVal (fun _ => Collection.new) (Store.new sch nid).collections) := by
    rw [storeNew_collections sch nid hss]
    exact SMap.mapVal_sorted _ (SMap.mapVal_sorted _ hss)
  have hclearGet : ∀ k, SMap.get
      (SMap.mapVal (fun _ => Collection.new) (Store.new sch nid).collections) k
      = (SMap.get sch.collections k).map fun _ => Collection.new := by
    intro k
    rw [storeNew_collections sch nid hss, SMap.get_mapVal, SMap.get_mapVal, Option.map_map]
    rfl
  have hget : ∀ k : String,
      SMap.get ((cols.filterMap fun q =>
          if q.2.records.isEmpty then none else some (q.1, q.2.records)).foldl
        (fun cols2 centry =>
          match SMap.get cols2 centry.1 with
          | some col => cols2.insert centry.1
              (centry.2.foldl (fun c rentry => c.insertRecord rentry.2) col)
          | none => cols2)
        (SMap.mapVal (fun _ => Collection.new) (Store.new sch nid).collections)) k
      = SMap.get cols k := by
    intro k
    rw [import_fold_get _ _ hfmne k, filterMap_records_get cols hcs k]
    cases hgk : SMap.get cols k with
    | none =>
      dsimp only
      have hks : SMap.get sch.collections k = none := by
        cases hsk : SMap.get sch.collections k with
        | none => rfl
        | some cs =>
          exfalso
          have hmem : k ∈ SMap.keys sch.collections :=
            SMap.get_isSome_iff_mem_keys.mp (by rw [hsk]; rfl)
          rw [← h5] at hmem
          have hsome := SMap.get_isSome_iff_mem_keys.mpr hmem
          rw [hgk] at hsome
          exact Bool.noConfusion hsome
      simp [hclearGet k, hks]
    | some col =>
      obtain ⟨crecs⟩ := col
      have hmemcols : (k, (⟨crecs⟩ : Collection)) ∈ cols := SMap.get_mem hgk
      have hkschema : ∃ cs, SMap.get sch.collections k = some cs := by
        apply Option.isSome_iff_exists.mp
        apply SMap.get_isSome_iff_mem_keys.mpr
        rw [← h5]
        exact List.mem_map.mpr ⟨(k, ⟨crecs⟩), hmemcols, rfl⟩
      obtain ⟨cs, hcsk⟩ := hkschema
      dsimp only
      cases he : crecs.isEmpty with
      | true =>
        have hnil : crecs = [] := by simpa using he
        subst hnil
        simp only [reduceIte]
        rw [hclearGet k, hcsk]
        rfl
      | false =>
        have hsortedr : SMap.Sorted ([] ++ crecs) := by
          rw [List.nil_append]
          exact hrs (k, ⟨crecs⟩) hmemcols
        have hids : ∀ p ∈ crecs, p.2.id = p.1 :=
          fun p hp => (h4 (k, ⟨crecs⟩) hmemcols p hp).2
        have hfold := foldl_insertRecord_go crecs [] hsortedr hids
        rw [if_neg Bool.false_ne_true]
        dsimp only
        rw [hclearGet k, hcsk]
        dsimp only [Option.map]
        rw [show (Collection.new : Collection) = (⟨[]⟩ : Collection) from rfl, hfold]
        rw [List.nil_append]
  rw [Store.importState, hvalid]
  dsimp only
  rw [if_neg (fun hne => hne rfl : ¬(nid ≠ (Store.new sch nid).nodeId))]
  rw [Prod.mk.injEq]
  refine ⟨rfl, ?_⟩
  rw [Store.mk.injEq]
  exact ⟨rfl, rfl, rfl,
    SMap.ext_sorted (import_fold_sorted _ _ hclearSorted) hcs hget, rfl⟩

/-- C6 (witness): the round-trip theorem applied to the concrete E4 store,
whose snapshot carries one record and one pending delete. -/
theorem c6_import_export_roundtrip_witness :
    (Store.new storeC4.schema storeC4.nodeId).importState storeC4.exportState
      = (.ok (), storeC4) := by
  apply c6_import_export_roundtrip storeC4 rfl rfl
  · intro ce hce
    rw [show storeC4.collections = [("users", (⟨[("u1", recU1)]⟩ : Collection))] from rfl,
      List.mem_singleton] at hce
    subst hce
    rfl
  · intro ce hce re hre
    rw [show storeC4.collections = [("users", (⟨[("u1", recU1)]⟩ : Collection))] from rfl,
      List.mem_singleton] at hce
    subst hce
    rw [List.mem_singleton] at hre
    subst hre
    exact ⟨rfl, rfl⟩
  · rfl
  · intro ce hce re hre
    rw [show storeC4.collections = [("users", (⟨[("u1", recU1)]⟩ : Collection))] from rfl,
      List.mem_singleton] at hce
    subst hce
    rw [List.mem_singleton] at hre
    subst hre
    exact rfl

/-! ### Claim C2: TimestampWins tie-breaking -/

/-- C2 (counterexample): under `TimestampWins` with equal timestamps, the code
declares the local operation the winner even though the remote operation is
strictly larger in the `(clock, op_id)` order the claim names as the
fallback. -/
theorem c2_counterexample :
    (Reconciler.new schemaU .timestampWins).resolveConflict tsLocalOp tsRemoteOp
      = (tsLocalOp, .localWins)
    ∧ tsLocalOp.timestamp = tsRemoteOp.timestamp
    ∧ tsLocalOp.key < tsRemoteOp.key := by
  refine ⟨rfl, rfl, ?_⟩
  decide

/-- C2 (amended): under `TimestampWins` the operation with the larger
timestamp wins, and on equal timestamps the local operation wins; no
`(clock, op_id)` fallback is consulted. -/
theorem c2_timestampWins_winner (rc : Reconciler) (h : rc.strategy = .timestampWins)
    (localOp remoteOp : Operation) :
    (remoteOp.timestamp ≤ localOp.timestamp →
      rc.resolveConflict localOp remoteOp = (localOp, .localWins))
    ∧ (localOp.timestamp < remoteOp.timestamp →
      rc.resolveConflict localOp remoteOp = (remoteOp, .remoteWins)) := by
  unfold Reconciler.resolveConflict
  rw [h]
  constructor
  · intro h2
    rw [if_pos h2]
  · intro h2
    rw [if_neg (not_le.mpr h2)]

/-- C2 (witness): the amended statement evaluated on the tied pair. -/
theorem c2_timestampWins_winner_witness :
    (Reconciler.new schemaU .timestampWins).resolveConflict tsLocalOp tsRemoteOp
      = (tsLocalOp, .localWins) :=
  (c2_timestampWins_winner (Reconciler.new schemaU .timestampWins) rfl
    tsLocalOp tsRemoteOp).1 (by decide)

/-! ### Claim C3: metadata written by a winning operation -/

/-- C3 (counterexample): the remote create `rCreate` wins the conflict
(`RemoteWins`), yet the record it produces carries `origin = Local`, because
`force_apply_op` builds creates through `Record::new`. Its clock and
timestamp are still the winner's. -/
theorem c3_counterexample :
    ((Reconciler.new schemaU .clockWins).reconcile [lCreate] [rCreate]).1.conflicts.map
        (fun c => (c.resolution, c.winnerOpId)) = [(.remoteWins, "op-remote")]
    ∧ (((Reconciler.new schemaU .clockWins).reconcile [lCreate] [rCreate]).2.get2
        "users" "u1").map (fun r => (r.metadata.origin, r.metadata.clock, r.metadata.updatedAt))
      = some (.loc, ⟨"remote", 5⟩, 1000)
    ∧ Origin.loc ≠ Origin.rem := by
  exact ⟨rfl, rfl, by decide⟩

/-- C3 (amended): when `force_apply_op` applies a winning operation, the
winner's clock and timestamp are copied into the record metadata; for updates
and deletes (on an existing record) the origin follows the winner's source,
but for creates the origin is always `Local` regardless of the source. -/
theorem c3_force_apply_metadata (rc : Reconciler) (t : TrackedOp) :
    (∀ c : CreateOp, t.operation = .create c →
      (rc.forceApplyOp t).records.get2 c.collection c.id
        = some ⟨Record.new c.id c.collection c.payload c.timestamp c.clock, t.operation, t.source⟩
      ∧ (Record.new c.id c.collection c.payload c.timestamp c.clock).metadata
          = ⟨c.timestamp, c.timestamp, .loc, c.clock⟩)
    ∧ (∀ (u : UpdateOp) (st : RecordState), t.operation = .update u →
        rc.records.get2 u.collection u.id = some st →
      (rc.forceApplyOp t).records.get2 u.collection u.id
        = some ⟨st.record.updatePayload u.payload u.timestamp u.clock
            (Reconciler.originOfSource t.source), t.operation, t.source⟩
      ∧ (st.record.updatePayload u.payload u.timestamp u.clock
          (Reconciler.originOfSource t.source)).metadata
        = ⟨st.record.metadata.createdAt, u.timestamp, Reconciler.originOfSource t.source, u.clock⟩)
    ∧ (∀ (d : DeleteOp) (st : RecordState), t.operation = .delete d →
        rc.records.get2 d.collection d.id = some st →
      (rc.forceApplyOp t).records.get2 d.collection d.id
        = some ⟨st.record.markDeleted d.timestamp d.clock
            (Reconciler.originOfSource t.source), t.operation, t.source⟩
      ∧ (st.record.markDeleted d.timestamp d.clock
          (Reconciler.originOfSource t.source)).metadata
        = ⟨st.record.metadata.createdAt, d.timestamp, Reconciler.originOfSource t.source, d.clock⟩) := by
  refine ⟨?_, ?_, ?_⟩
  · intro c hc
    constructor
    · unfold Reconciler.forceApplyOp
      rw [hc]
      exact SMap.get2_insert2_self _ _ _ _
    · rfl
  · intro u st hu hget
    constructor
    · unfold Reconciler.forceApplyOp
      rw [hu]
      simp only [hget]
      exact SMap.get2_insert2_self _ _ _ _
    · rfl
  · intro d st hd hget
    constructor
    · unfold Reconciler.forceApplyOp
      rw [hd]
      simp only [hget]
      exact SMap.get2_insert2_self _ _ _ _
    · rfl

/-- C3 (witness): the amended statement evaluated on a winning remote update
against the seeded E4 record. -/
theorem c3_force_apply_metadata_witness :
    (rcSeeded.forceApplyOp ⟨updOp, .rem⟩).records.get2 "users" "u1"
      = some ⟨recU1.updatePayload payloadX 2500 ⟨"remote", 5⟩ .rem, updOp, .rem⟩
    ∧ (recU1.updatePayload payloadX 2500 ⟨"remote", 5⟩ .rem).metadata
      = ⟨1000, 2500, .rem, ⟨"remote", 5⟩⟩ :=
  (c3_force_apply_metadata rcSeeded ⟨updOp, .rem⟩).2.1
    ⟨"update-remote", "u1", "users", payloadX, 1, 2500, ⟨"remote", 5⟩⟩
    ⟨recU1, lCreate, .loc⟩ rfl rfl

/-! ### Claim C4: the E4 delete-versus-update scenario -/

/-- C4 (counterexample): in the E4 scenario the final record for `u1` is
tombstoned but at version 3, not version 2: the losing remote update is
applied first (bumping the version to 2) before the winning delete bumps it
to 3. -/
theorem c4_counterexample :
    ((storeC4.reconcile [updOp] .clockWins).2.getIncludingDeleted "users" "u1").map
        (fun r => (r.deleted, r.version)) = some (true, 3)
    ∧ some ((true : Bool), (3 : Nat)) ≠ some (true, 2) := by
  exact ⟨rfl, by decide⟩

/-- C4 (amended): reconciling the E4 scenario under `ClockWins` makes the
delete win the delete-versus-update conflict, and the final record is
tombstoned with version 3: the remote update first wins against the seeded
record state (version 2, a `RemoteWins` conflict), then the pending delete
wins against it (version 3, a `LocalWins` conflict). -/
theorem c4_delete_wins_tombstone_version3 :
    ((storeC4.reconcile [updOp] .clockWins).2.getIncludingDeleted "users" "u1").map
        (fun r => (r.deleted, r.version)) = some (true, 3)
    ∧ (storeC4.reconcile [updOp] .clockWins).1.conflicts.map
        (fun c => (c.resolution, c.winnerOpId))
      = [(.remoteWins, "update-remote"), (.localWins, "delete-local")]
    ∧ (storeC4.reconcile [updOp] .clockWins).2.pendingOps.map (fun p => p.operation.opId)
      = ["delete-local"] := by
  exact ⟨rfl, rfl, rfl⟩

/-! ### Claim C7: Timestamp field validation -/

/-- C7 (counterexample): a `Timestamp` field accepts the negative integer
`-1`; `validate_type` returns `Ok`, not a `TypeMismatch`. -/
theorem c7_counterexample :
    FieldDef.validateType ⟨"ts", .timestamp, true⟩ (.num (.int (-1))) = .ok ()
    ∧ (Except.ok () : Except Error Unit) ≠ .error (.typeMismatch "ts" "Timestamp" "Int") := by
  refine ⟨rfl, ?_⟩
  intro h
  exact Except.noConfusion h

/-- C7 (amended): a `Timestamp` field accepts every integer representable in
serde_json (`is_u64 || is_i64`), negative integers included; floats and
strings are rejected with a `TypeMismatch` error. -/
theorem c7_timestamp_accepts_integers (fd : FieldDef) (h : fd.fieldType = .timestamp) :
    (∀ i : Int, -(2 ^ 63) ≤ i → i ≤ 2 ^ 64 - 1 →
      fd.validateType (.num (.int i)) = .ok ())
    ∧ (∀ q : Rat, fd.validateType (.num (.float q))
        = .error (.typeMismatch fd.name "Timestamp" "Float"))
    ∧ (∀ s : String, fd.validateType (.str s)
        = .error (.typeMismatch fd.name "Timestamp" "String")) := by
  refine ⟨?_, ?_, ?_⟩
  · intro i hlo hhi
    unfold FieldDef.validateType
    rw [h]
    have : ((Json.num (.int i)).isU64 || (Json.num (.int i)).isI64) = true := by
      simp only [Json.isU64, Json.isI64, JNum.isU64, JNum.isI64, Bool.or_eq_true,
        Bool.and_eq_true, decide_eq_true_eq]
      rcases le_or_lt 0 i with hpos | hneg
      · exact Or.inl ⟨hpos, hhi⟩
      · exact Or.inr ⟨hlo, by omega⟩
    simp [this]
  · intro q
    unfold FieldDef.validateType
    rw [h]
    simp [Json.isU64, Json.isI64, JNum.isU64, JNum.isI64, jsonTypeName,
      JNum.isF64, FieldType.display]
  · intro s
    unfold FieldDef.validateType
    rw [h]
    simp [Json.isU64, Json.isI64, jsonTypeName, FieldType.display]

/-- C7 (witness): the amended statement evaluated at `-5`, a float and a
string. -/
theorem c7_timestamp_accepts_integers_witness :
    FieldDef.validateType ⟨"ts", .timestamp, true⟩ (.num (.int (-5))) = .ok ()
    ∧ FieldDef.validateType ⟨"ts", .timestamp, true⟩ (.num (.float 1))
      = .error (.typeMismatch "ts" "Timestamp" "Float")
    ∧ FieldDef.validateType ⟨"ts", .timestamp, true⟩ (.str "now")
      = .error (.typeMismatch "ts" "Timestamp" "String") :=
  ⟨(c7_timestamp_accepts_integers ⟨"ts", .timestamp, true⟩ rfl).1 (-5) (by decide) (by decide),
   (c7_timestamp_accepts_integers ⟨"ts", .timestamp, true⟩ rfl).2.1 1,
   (c7_timestamp_accepts_integers ⟨"ts", .timestamp, true⟩ rfl).2.2 "now"⟩

/-! ### Claim C8: rejection of future snapshot format versions -/

/-- C8 (counterexample): `Store::import_state` accepts a snapshot whose
`format_version` is 2 (> `SNAPSHOT_FORMAT_VERSION` = 1); only
`StoreSnapshot::from_json` performs that check. -/
theorem c8_counterexample :
    (Store.importState (Store.new schemaU "node-1") snapFV2).1 = .ok ()
    ∧ 1 < snapFV2.formatVersion := by
  exact ⟨rfl, by decide⟩

/-- C8 (amended): the `format_version > SNAPSHOT_FORMAT_VERSION` rejection
with `InvalidSnapshot` happens in `StoreSnapshot::from_json` (after
deserialization), not in `Store::import_state`, whose result never depends on
the snapshot's `format_version`. -/
theorem c8_format_version_gate :
    (∀ sn : StoreSnapshot, SNAPSHOT_FORMAT_VERSION < sn.formatVersion →
      sn.fromJsonCheck = .error (.invalidSnapshot
        ("unsupported snapshot format version: " ++ toString sn.formatVersion ++
          " (max supported: " ++ toString SNAPSHOT_FORMAT_VERSION ++ ")")))
    ∧ (∀ sn : StoreSnapshot, sn.formatVersion ≤ SNAPSHOT_FORMAT_VERSION →
      sn.fromJsonCheck = .ok sn)
    ∧ (∀ (st : Store) (sn : StoreSnapshot) (v : Nat),
      Store.importState st { sn with formatVersion := v } = Store.importState st sn) := by
  refine ⟨?_, ?_, ?_⟩
  · intro sn hv
    unfold StoreSnapshot.fromJsonCheck
    rw [if_pos hv]
  · intro sn hv
    unfold StoreSnapshot.fromJsonCheck
    rw [if_neg (not_lt.mpr hv)]
  · intro st sn v
    rfl

/-- C8 (witness): the amended statement evaluated on `snapFV2` and on its
version-1 variant. -/
theorem c8_format_version_gate_witness :
    snapFV2.fromJsonCheck = .error (.invalidSnapshot
      "unsupported snapshot format version: 2 (max supported: 1)")
    ∧ StoreSnapshot.fromJsonCheck { snapFV2 with formatVersion := 1 }
      = .ok { snapFV2 with formatVersion := 1 }
    ∧ Store.importState (Store.new schemaU "node-1") { snapFV2 with formatVersion := 99 }
      = Store.importState (Store.new schemaU "node-1") snapFV2 :=
  ⟨c8_format_version_gate.1 snapFV2 (by decide),
   c8_format_version_gate.2.1 { snapFV2 with formatVersion := 1 } (by decide),
   c8_format_version_gate.2.2 (Store.new schemaU "node-1") snapFV2 99⟩

/-! ### Claim C9: clock tick overflow -/

/-- C9: `tick()` on a clock whose counter is `u64::MAX` silently wraps the
counter to 0 (modelling the `u64` increment modulo `2 ^ 64`); no error is
detected or reported, contradicting the specification's requirement of a
hard fatal. A normal tick increments by 1. -/
theorem c9_tick_wraps_silently :
    LogicalClock.tick ⟨"node-1", 2 ^ 64 - 1⟩ = ⟨"node-1", 0⟩
    ∧ LogicalClock.tick ⟨"node-1", 41⟩ = ⟨"node-1", 42⟩ := by
  exact ⟨by decide, by decide⟩



/-! ### Claim C10: atomicity of `Store::apply` on errors -/

/-- C10: when `apply` returns an error the collections and the pending queue
are unchanged; and whenever the operation passed schema validation, the store
clock has already been merged with the operation clock (counter raised to the
max), even though the operation failed. -/
theorem c10_apply_error_atomicity (s : Store) (op : Operation) (t : Nat) (e : Error)
    (herr : (s.apply op t).1 = .error e) :
    (s.apply op t).2.collections = s.collections
    ∧ (s.apply op t).2.pendingOps = s.pendingOps
    ∧ (s.schema.validateOperation op = .ok () →
      (s.apply op t).2.clock = s.clock.merge op.clock) := by
  cases op with
  | create c =>
    cases hv : s.schema.validateOperation (Operation.create c) with
    | error e2 =>
      simp only [Store.apply, hv]
      exact ⟨by trivial, by trivial, fun hok => Except.noConfusion hok⟩
    | ok u =>
      cases happ : Store.applyCreate { s with clock := s.clock.merge c.clock } c t with
      | error e2 =>
        simp only [Store.apply, hv, Operation.clock, happ]
        exact ⟨by trivial, by trivial, fun _ => by trivial⟩
      | ok pr =>
        obtain ⟨r, s2⟩ := pr
        have hok : (s.apply (Operation.create c) t).1 = .ok r := by
          simp only [Store.apply, hv, Operation.clock, happ]
        exact absurd (hok.symm.trans herr) fun hcon => Except.noConfusion hcon
  | update u2 =>
    cases hv : s.schema.validateOperation (Operation.update u2) with
    | error e2 =>
      simp only [Store.apply, hv]
      exact ⟨by trivial, by trivial, fun hok => Except.noConfusion hok⟩
    | ok u =>
      cases happ : Store.applyUpdate { s with clock := s.clock.merge u2.clock } u2 t with
      | error e2 =>
        simp only [Store.apply, hv, Operation.clock, happ]
        exact ⟨by trivial, by trivial, fun _ => by trivial⟩
      | ok pr =>
        obtain ⟨r, s2⟩ := pr
        have hok : (s.apply (Operation.update u2) t).1 = .ok r := by
          simp only [Store.apply, hv, Operation.clock, happ]
        exact absurd (hok.symm.trans herr) fun hcon => Except.noConfusion hcon
  | delete d =>
    cases hv : s.schema.validateOperation (Operation.delete d) with
    | error e2 =>
      simp only [Store.apply, hv]
      exact ⟨by trivial, by trivial, fun hok => Except.noConfusion hok⟩
    | ok u =>
      cases happ : Store.applyDelete { s with clock := s.clock.merge d.clock } d t with
      | error e2 =>
        simp only [Store.apply, hv, Operation.clock, happ]
        exact ⟨by trivial, by trivial, fun _ => by trivial⟩
      | ok pr =>
        obtain ⟨r, s2⟩ := pr
        have hok : (s.apply (Operation.delete d) t).1 = .ok r := by
          simp only [Store.apply, hv, Operation.clock, happ]
        exact absurd (hok.symm.trans herr) fun hcon => Except.noConfusion hcon

/-- C10 (witness): an update of a missing record passes validation, fails
with `RecordNotFound`, leaves collections and pending unchanged, and has
merged the clock to counter 7. -/
theorem c10_apply_error_atomicity_witness :
    ((Store.new schemaU "w").apply ghostUpdateOp 1000).2.collections
      = (Store.new schemaU "w").collections
    ∧ ((Store.new schemaU "w").apply ghostUpdateOp 1000).2.pendingOps
      = (Store.new schemaU "w").pendingOps
    ∧ ((Store.new schemaU "w").apply ghostUpdateOp 1000).2.clock
      = (Store.new schemaU "w").clock.merge ghostUpdateOp.clock :=
  have h := c10_apply_error_atomicity (Store.new schemaU "w") ghostUpdateOp 1000
    (.recordNotFound "ghost") rfl
  ⟨h.1, h.2.1, h.2.2 rfl⟩

/-! ### Claim C1: permutation invariance of reconciliation -/

theorem sortOps_eq_of_perm {A B : List TrackedOp} (hperm : A.Perm B)
    (hnodup : (B.map fun t => t.operation.key).Nodup) :
    sortOps A = sortOps B := by
  have hsA : List.Sorted trackedLe (sortOps A) := List.sorted_insertionSort trackedLe A
  have hsB : List.Sorted trackedLe (sortOps B) := List.sorted_insertionSort trackedLe B
  have hAB : (sortOps A).Perm (sortOps B) :=
    (List.perm_insertionSort trackedLe A).trans
      (hperm.trans (List.perm_insertionSort trackedLe B).symm)
  have hkeyB : List.Pairwise (fun a b : TrackedOp => a.operation.key ≠ b.operation.key) B := by
    rwa [List.Nodup, List.pairwise_map] at hnodup
  have hkeySB : List.Pairwise (fun a b : TrackedOp => a.operation.key ≠ b.operation.key)
      (sortOps B) :=
    (((List.perm_insertionSort trackedLe B).symm).pairwise_iff fun hab => hab.symm).mp hkeyB
  have hkeySA : List.Pairwise (fun a b : TrackedOp => a.operation.key ≠ b.operation.key)
      (sortOps A) :=
    (hAB.symm.pairwise_iff fun hab => hab.symm).mp hkeySB
  have hltA : List.Sorted trackedLt (sortOps A) :=
    (hsA.and hkeySA).imp fun h => lt_of_le_of_ne h.1 h.2
  have hltB : List.Sorted trackedLt (sortOps B) :=
    (hsB.and hkeySB).imp fun h => lt_of_le_of_ne h.1 h.2
  exact List.eq_of_perm_of_sorted hAB hltA hltB

/-- C1: reconciliation is invariant under permutations of the local and
remote operation lists, for any schema, strategy and seeded existing state,
provided the operation ids across the two lists are pairwise distinct (the
documented `op_id` uniqueness invariant): the `ReconcileResult` and the final
record map are identical. -/
theorem c1_reconcile_permutation_invariant (rc : Reconciler) (L R L2 R2 : List Operation)
    (hL : L2.Perm L) (hR : R2.Perm R)
    (hids : ((L ++ R).map Operation.opId).Nodup) :
    rc.reconcile L2 R2 = rc.reconcile L R := by
  have hperm : (L2.map TrackedOp.localTagged ++ R2.map TrackedOp.remoteTagged).Perm
      (L.map TrackedOp.localTagged ++ R.map TrackedOp.remoteTagged) :=
    (hL.map TrackedOp.localTagged).append (hR.map TrackedOp.remoteTagged)
  have hkeys : ((L.map TrackedOp.localTagged ++ R.map TrackedOp.remoteTagged).map
      fun t => t.operation.key).Nodup := by
    rw [List.map_append, List.map_map, List.map_map]
    have e1 : ((fun t : TrackedOp => t.operation.key) ∘ TrackedOp.localTagged)
        = Operation.key := rfl
    have e2 : ((fun t : TrackedOp => t.operation.key) ∘ TrackedOp.remoteTagged)
        = Operation.key := rfl
    rw [e1, e2, ← List.map_append]
    rw [List.Nodup, List.pairwise_map] at hids ⊢
    exact hids.imp fun h hkeyeq => h (Operation.opId_eq_of_key_eq hkeyeq)
  simp only [Reconciler.reconcile]
  rw [sortOps_eq_of_perm hperm hkeys]

/-- C1 (witness): a two-element local list swapped against itself and a
singleton remote list, with pairwise distinct op ids. -/
theorem c1_reconcile_permutation_invariant_witness :
    Reconciler.reconcile (Reconciler.new schemaU .clockWins)
        [.create cOp2, .create cOp1] [.create cOp3]
      = Reconciler.reconcile (Reconciler.new schemaU .clockWins)
        [.create cOp1, .create cOp2] [.create cOp3] :=
  c1_reconcile_permutation_invariant (Reconciler.new schemaU .clockWins)
    [.create cOp1, .create cOp2] [.create cOp3]
    [.create cOp2, .create cOp1] [.create cOp3]
    (List.Perm.swap (Operation.create cOp1) (Operation.create cOp2) [])
    (List.Perm.refl _)
    (by decide)



/-! ### Claim C5: canonical snapshot serialization -/

set_option maxRecDepth 4000

/-- C5 (counterexample): the E5 stores built by applying the same two creates
in opposite orders produce different `export_state` JSON strings, because the
pending-operation queues are serialized in insertion order. -/
theorem c5_counterexample :
    storeE5a.exportState.toJson ≠ storeE5b.exportState.toJson := by
  decide

/-- Characterization of a successful create: the collection exists, the
record id is absent, validation passed, and the store gains exactly the new
record, the merged clock, and one pending entry. -/
theorem apply_create_ok {s : Store} {c : CreateOp} {t : Nat}
    (h : exceptIsOk (s.apply (.create c) t).1 = true) :
    ∃ col, s.collections.get c.collection = some col
      ∧ col.records.get c.id = none
      ∧ (s.apply (.create c) t).2 =
        { s with clock := s.clock.merge c.clock,
                 collections := s.collections.insert c.collection
                   (col.insertRecord (Record.new c.id c.collection c.payload t c.clock)),
                 pendingOps := s.pendingOps ++ [⟨.create c, t⟩] } := by
  cases hv : s.schema.validateOperation (.create c) with
  | error e =>
    rw [show (s.apply (.create c) t) = (.error e, s) by
      simp [Store.apply, hv]] at h
    exact absurd h (by simp [exceptIsOk])
  | ok u =>
    cases hcol : s.collections.get c.collection with
    | none =>
      rw [show (s.apply (.create c) t)
          = (.error (.collectionNotFound c.collection),
             { s with clock := s.clock.merge c.clock }) by
        simp [Store.apply, Store.applyCreate, hv, Operation.clock, hcol]] at h
      exact absurd h (by simp [exceptIsOk])
    | some col =>
      cases hrec : col.records.get c.id with
      | some r =>
        rw [show (s.apply (.create c) t)
            = (.error (.recordAlreadyExists c.id),
               { s with clock := s.clock.merge c.clock }) by
          simp [Store.apply, Store.applyCreate, hv, Operation.clock, hcol, hrec]] at h
        exact absurd h (by simp [exceptIsOk])
      | none =>
        refine ⟨col, rfl, hrec, ?_⟩
        simp [Store.apply, Store.applyCreate, hv, Operation.clock, hcol, hrec]

/-- C5 (amended): two stores with the same schema and node id built by
applying the same two create operations in opposite orders agree on records
and clock; once the pending queues are cleared (`clear_pending`), their
`export_state` JSON serializations are byte-identical strings. (Without
clearing, the pending queues preserve insertion order and the serializations
differ, as the counterexample shows.) -/
theorem c5_canonical_serialization_after_clear (sch : Schema) (n : String)
    (a b : CreateOp) (ta tb : Nat)
    (hab1 : exceptIsOk ((Store.new sch n).apply (.create a) ta).1 = true)
    (hab2 : exceptIsOk (((Store.new sch n).apply (.create a) ta).2.apply (.create b) tb).1 = true)
    (hba1 : exceptIsOk ((Store.new sch n).apply (.create b) tb).1 = true)
    (hba2 : exceptIsOk (((Store.new sch n).apply (.create b) tb).2.apply (.create a) ta).1 = true) :
    (((Store.new sch n).apply (.create a) ta).2.apply (.create b) tb).2.clearPending.exportState.toJson
      = (((Store.new sch n).apply (.create b) tb).2.apply (.create a) ta).2.clearPending.exportState.toJson := by
  obtain ⟨colA, hgA, hrA, hsA⟩ := apply_create_ok hab1
  obtain ⟨colB2, hgB2, hrB2, hsB2⟩ := apply_create_ok hab2
  obtain ⟨colB, hgB, hrB, hsB⟩ := apply_create_ok hba1
  obtain ⟨colA2, hgA2, hrA2, hsA2⟩ := apply_create_ok hba2
  rw [hsA] at hgB2
  rw [hsB] at hgA2
  dsimp only at hgB2 hgA2
  rw [hsB2, hsA2, hsA, hsB]
  dsimp only
  refine congrArg (fun st : Store => st.exportState.toJson) ?_
  simp only [Store.clearPending, Store.mk.injEq, true_and, and_true]
  refine ⟨?_, ?_⟩
  · simp only [LogicalClock.merge, LogicalClock.mk.injEq, true_and, and_true]
    omega
  · by_cases hcc : a.collection = b.collection
    · rw [← hcc] at hgB2 hgB hgA2 ⊢
      rw [hgA] at hgB
      injection hgB with hgB
      rw [SMap.get_insert_self] at hgB2
      injection hgB2 with hgB2
      rw [← hgB2] at hrB2
      rw [← hgB] at hgA2
      rw [SMap.get_insert_self] at hgA2
      injection hgA2 with hgA2
      have hid : b.id ≠ a.id := by
        intro he
        rw [show (colA.insertRecord (Record.new a.id a.collection a.payload ta a.clock)).records
            = colA.records.insert a.id (Record.new a.id a.collection a.payload ta a.clock) from rfl,
          he, SMap.get_insert_self] at hrB2
        exact Option.noConfusion hrB2
      rw [SMap.insert_insert_self, SMap.insert_insert_self, ← hgB2, ← hgA2]
      rw [Collection.insertRecord_comm colA
        (Record.new a.id a.collection a.payload ta a.clock)
        (Record.new b.id a.collection b.payload tb b.clock) hid.symm]
    · rw [SMap.get_insert_ne _ _ (fun he => hcc he.symm)] at hgB2
      rw [SMap.get_insert_ne _ _ hcc] at hgA2
      rw [hgB] at hgB2
      injection hgB2 with hgB2
      rw [hgA] at hgA2
      injection hgA2 with hgA2
      rw [← hgB2, ← hgA2]
      exact SMap.insert_comm _ _ _ hcc

/-- C5 (witness): the amended statement evaluated on the E5 creates. -/
theorem c5_canonical_serialization_witness :
    storeE5a.clearPending.exportState.toJson = storeE5b.clearPending.exportState.toJson :=
  c5_canonical_serialization_after_clear schemaU "n" cOp1 cOp2 1000 2000 rfl rfl rfl rfl


end Carry
